import Mathlib

/-!
Verification development for the velox HTTP server core.

The definitions below are shallow embeddings, translated from the
TypeScript sources of the repository:

  - src/utils/sanitizer.ts        (InputSanitizer)
  - src/core/file-handler.ts      (FileHandler.validateFile, RequestParser)
  - src/workers/file-worker.ts    (analyzeFile, simulateVirusScan)
  - src/config/security.ts        (DEFAULT_SECURITY_CONFIG, FILE_SIGNATURES)
  - src/utils/fast-router.ts      (FastRouter)
  - src/core/router.ts            (VeloxRouter.executeMiddlewareChain)
  - src/workers/worker-manager.ts (WorkerManager)
  - src/core/server.ts            (VeloxServer.handleRequest skeleton)

Buffers are modelled as lists of byte values (Nat), JS strings as Lean
strings, JS objects and Maps as insertion-ordered association lists.
-/

namespace Velox

/-! ### Association lists: the model of JS objects and Maps.

JS Map.set and object assignment overwrite in place, keeping the
original insertion position; Map.get and property access read the
entry for a key.  Iteration (Object.entries, for..of on a Map) is in
insertion order for string keys. -/

/-- Lookup of the first entry with the given key. -/
def getA {α β : Type} [DecidableEq α] : List (α × β) → α → Option β
  | [], _ => none
  | (k, v) :: t, x => if k = x then some v else getA t x

/-- Overwrite in place, or append a fresh entry at the end. -/
def setA {α β : Type} [DecidableEq α] : List (α × β) → α → β → List (α × β)
  | [], k, v => [(k, v)]
  | (k', v') :: t, k, v => if k' = k then (k, v) :: t else (k', v') :: setA t k v

/-- Remove the first entry with the given key (Map.delete). -/
def delA {α β : Type} [DecidableEq α] : List (α × β) → α → List (α × β)
  | [], _ => []
  | (k', v') :: t, k => if k' = k then t else (k', v') :: delA t k

/-- Remove the first occurrence of an element
(Array.prototype.splice at indexOf). -/
def eraseFirst {α : Type} [DecidableEq α] : List α → α → List α
  | [], _ => []
  | a :: t, x => if a = x then t else a :: eraseFirst t x

theorem getA_setA_eq {α β : Type} [DecidableEq α] (l : List (α × β)) (k : α) (v : β) :
    getA (setA l k v) k = some v := by
  induction l with
  | nil => simp [getA, setA]
  | cons h t ih =>
    obtain ⟨k', v'⟩ := h
    by_cases hk : k' = k <;> simp [getA, setA, hk, ih]

theorem getA_setA_ne {α β : Type} [DecidableEq α] (l : List (α × β)) (k x : α) (v : β)
    (hx : x ≠ k) : getA (setA l k v) x = getA l x := by
  have hkx : ¬ k = x := fun h => hx h.symm
  induction l with
  | nil => simp [getA, setA, hkx]
  | cons e t ih =>
    obtain ⟨k', v'⟩ := e
    by_cases hk : k' = k
    · subst hk
      simp [getA, setA, hkx]
    · by_cases hx' : k' = x <;> simp [getA, setA, hk, hx', hx, ih]

theorem mem_setA {α β : Type} [DecidableEq α] (l : List (α × β)) (k : α) (v : β) :
    ∀ e ∈ setA l k v, e ∈ l ∨ e = (k, v) := by
  induction l with
  | nil => simp [setA]
  | cons h t ih =>
    obtain ⟨k', v'⟩ := h
    intro e he
    by_cases hk : k' = k
    · simp [setA, hk] at he
      rcases he with he | he
      · right; simp [he]
      · left; simp [he]
    · simp [setA, hk] at he
      rcases he with he | he
      · left; simp [he]
      · rcases ih e he with h' | h'
        · left; simp [h']
        · right; exact h'

/-! ### Byte-level helpers shared by the parsers. -/

/-- Is the first list a prefix of the second? -/
def listPrefix {α : Type} [DecidableEq α] : List α → List α → Bool
  | [], _ => true
  | _ :: _, [] => false
  | a :: s, b :: t => a = b && listPrefix s t

/-- Buffer.indexOf of a sub-sequence: index of its first occurrence. -/
def indexOfSub {α : Type} [DecidableEq α] : List α → List α → Option Nat
  | [], pat => if listPrefix pat [] then some 0 else none
  | a :: t, pat =>
    if listPrefix pat (a :: t) then some 0
    else (indexOfSub t pat).map (· + 1)

/-- Does the sub-sequence occur anywhere (Buffer.includes)? -/
def containsSub {α : Type} [DecidableEq α] (l pat : List α) : Bool :=
  (indexOfSub l pat).isSome

/-- Bytes of an ASCII string. -/
def strBytes (s : String) : List Nat := s.toList.map Char.toNat

/-- The utf8 decode of a buffer, modelled byte-per-char.  The model is
exact on ASCII content, which is all the embedded code compares. -/
def bytesToStr (l : List Nat) : String := String.mk (l.map Char.ofNat)

/-! ### InputSanitizer (src/utils/sanitizer.ts)

sanitizeString applies, in order: removal of control characters,
HTML-escaping of five characters, removal of script-protocol patterns
(regex (javascript|vbscript|data|alert|on\w+): case-insensitive,
global), removal of SQL keywords (same style), truncation to 10000.
Each global regex replace scans left to right, removing non-overlapping
matches and resuming after each match; the character classes are
modelled over ASCII, where they agree with the JS regexes. -/

def isCtl (c : Char) : Bool := c.toNat < 0x20 || c.toNat == 0x7F

def isWordChar (c : Char) : Bool :=
  (0x61 ≤ c.toNat && c.toNat ≤ 0x7A) || (0x41 ≤ c.toNat && c.toNat ≤ 0x5A) ||
  (0x30 ≤ c.toNat && c.toNat ≤ 0x39) || c.toNat == 0x5F

def isJsSpace (c : Char) : Bool :=
  c == ' ' || c == '\t' || c == '\n' || c == '\r' || c.toNat == 0x0B || c.toNat == 0x0C

/-- The entity map of sanitizeString: lt, gt, quot, 39 and 96. -/
def escapeEntity (c : Char) : List Char :=
  if c = '<' then "&lt;".toList
  else if c = '>' then "&gt;".toList
  else if c = Char.ofNat 34 then "&quot;".toList
  else if c = Char.ofNat 39 then "&#39;".toList
  else if c = Char.ofNat 96 then "&#96;".toList
  else [c]

/-- Case-insensitive literal prefix match (the pattern is lowercase). -/
def ciPrefix : List Char → List Char → Bool
  | [], _ => true
  | _ :: _, [] => false
  | p :: ps, c :: cs => p == c.toLower && ciPrefix ps cs

/-- Length of the match of (javascript|vbscript|data|alert|on\w+): at
the head of the list, alternatives tried in the written order. -/
def matchProtoAt (cs : List Char) : Option Nat :=
  let tryLit : List Char → Option Nat := fun pat =>
    if ciPrefix pat cs ∧ (cs.drop pat.length).head? = some ':' then
      some (pat.length + 1)
    else none
  (tryLit "javascript".toList).orElse fun _ =>
  (tryLit "vbscript".toList).orElse fun _ =>
  (tryLit "data".toList).orElse fun _ =>
  (tryLit "alert".toList).orElse fun _ =>
  (if ciPrefix "on".toList cs then
     let run := (cs.drop 2).takeWhile isWordChar
     if run ≠ [] ∧ (cs.drop (2 + run.length)).head? = some ':' then
       some (2 + run.length + 1)
     else none
   else none)

/-- One global-replace pass removing the protocol patterns. -/
def removeProto : Nat → List Char → List Char
  | 0, cs => cs
  | _ + 1, [] => []
  | fuel + 1, c :: rest =>
    match matchProtoAt (c :: rest) with
    | some n => removeProto fuel ((c :: rest).drop n)
    | none => c :: removeProto fuel rest

/-- Length of the match of the SQL-keyword alternation at the head. -/
def matchSqlAt (cs : List Char) : Option Nat :=
  let pats := ["union", "select", "insert", "delete", "update", "drop",
               "alter", "create", "exec", "xp_", "--", ";"]
  (pats.find? fun p => ciPrefix p.toList cs).map String.length

/-- One global-replace pass removing the SQL keywords. -/
def removeSql : Nat → List Char → List Char
  | 0, cs => cs
  | _ + 1, [] => []
  | fuel + 1, c :: rest =>
    match matchSqlAt (c :: rest) with
    | some n => removeSql fuel ((c :: rest).drop n)
    | none => c :: removeSql fuel rest

/-- InputSanitizer.sanitizeString. -/
def sanitizeString (s : String) : String :=
  let cs1 := s.toList.filter fun c => !isCtl c
  let cs2 := cs1.flatMap escapeEntity
  let cs3 := removeProto cs2.length cs2
  let cs4 := removeSql cs3.length cs3
  String.mk (cs4.take 10000)

/-- The character class removed by sanitizeFilename. -/
def isFilenameBad (c : Char) : Bool :=
  c == '/' || c == '\\' || c == ':' || c == '*' || c == '?' ||
  c == Char.ofNat 34 || c == '<' || c == '>' || c == '|'

/-- InputSanitizer.sanitizeFilename. -/
def sanitizeFilename (s : String) : String :=
  if s = "" then "unnamed"
  else
    let cs1 := s.toList.filter fun c => !isFilenameBad c
    let cs2 := cs1.dropWhile fun c => c == '.' || isJsSpace c
    let cs3 := (cs2.reverse.dropWhile fun c => c == '.' || isJsSpace c).reverse
    if cs3 = [] then "unnamed" else String.mk (cs3.take 255)

/-! ### Security configuration (src/config/security.ts)

Only the fields the embedded code reads are modelled.  CLUSTER_MODE,
WORKER_THREADS, rate limiting, CORS, compression and logging configure
collaborators outside the claims. -/

structure SecurityConfig where
  MAX_FILE_SIZE : Nat
  ALLOWED_MIME_TYPES : List String
  FILE_HASHING : Bool
  FILE_VIRUS_SCAN : Bool
deriving DecidableEq

def DEFAULT_SECURITY_CONFIG : SecurityConfig where
  MAX_FILE_SIZE := 50 * 1024 * 1024
  ALLOWED_MIME_TYPES :=
    ["image/jpeg", "image/png", "image/gif", "image/webp", "image/svg+xml",
     "application/pdf", "text/plain", "text/csv", "application/json",
     "application/zip", "application/x-zip-compressed", "video/mp4",
     "video/webm", "audio/mpeg", "audio/wav", "audio/ogg"]
  FILE_HASHING := true
  FILE_VIRUS_SCAN := false

/-- FILE_SIGNATURES: magic-byte prefixes per mime type. -/
def FILE_SIGNATURES (mime : String) : Option (List (List Nat)) :=
  if mime = "image/jpeg" then some [[0xFF, 0xD8, 0xFF]]
  else if mime = "image/png" then
    some [[0x89, 0x50, 0x4E, 0x47, 0x0D, 0x0A, 0x1A, 0x0A]]
  else if mime = "image/gif" then some [[0x47, 0x49, 0x46, 0x38]]
  else if mime = "image/webp" then some [[0x52, 0x49, 0x46, 0x46]]
  else if mime = "application/pdf" then some [[0x25, 0x50, 0x44, 0x46]]
  else if mime = "application/zip" then
    some [[0x50, 0x4B, 0x03, 0x04], [0x50, 0x4B, 0x05, 0x06], [0x50, 0x4B, 0x07, 0x08]]
  else if mime = "application/gzip" then some [[0x1F, 0x8B, 0x08]]
  else if mime = "video/mp4" then
    some [[0x00, 0x00, 0x00, 0x18, 0x66, 0x74, 0x79, 0x70],
          [0x00, 0x00, 0x00, 0x20, 0x66, 0x74, 0x79, 0x70]]
  else if mime = "audio/mpeg" then some [[0xFF, 0xFB], [0xFF, 0xF3], [0xFF, 0xF2]]
  else if mime = "audio/wav" then some [[0x52, 0x49, 0x46, 0x46]]
  else none

/-! ### File validation (src/core/file-handler.ts and
src/workers/file-worker.ts)

FileHandler.validateFile checks size, mime allow-list and magic bytes;
when FILE_HASHING or FILE_VIRUS_SCAN is set it then runs the worker
file-validation branch (simulateVirusScan, analyzeFile).  The SHA-256
hash the worker also computes only decorates a valid result and is not
modelled; a worker crash or timeout, which the code maps to an invalid
result, has no source of its own in this pure model. -/

structure VFile where
  name : String
  fdata : List Nat
  mimetype : String
  size : Nat
deriving DecidableEq

/-- FileHandler.createFile (the data-carrying fields). -/
def createFile (name : String) (fdata : List Nat) (mimetype : String) : VFile where
  name := sanitizeFilename name
  fdata := fdata
  mimetype := mimetype
  size := fdata.length

structure ValidationResult where
  valid : Bool
  errMsg : Option String
deriving DecidableEq

/-- file-worker.ts simulateVirusScan: clean iff none of the six byte
patterns occurs in the content. -/
def virusScanClean (fdata : List Nat) : Bool :=
  let pats := ["EICAR-STANDARD-ANTIVIRUS-TEST-FILE",
               "X5O!P%@AP[4\\PZX54(P^)7CC)7\x7d$EICAR",
               "<script>alert(\"xss\")</script>",
               "<?php system($_GET[",
               "eval(",
               "exec("]
  !(pats.any fun p => containsSub fdata (strBytes p))

/-- file-worker.ts analyzeFile: rejects empty content, executable
headers and script substrings. -/
def analyzeFileSafe (fdata : List Nat) : Bool :=
  if fdata.length = 0 then false
  else
    let headers : List (List Nat) :=
      [[0x4D, 0x5A], [0x7F, 0x45, 0x4C, 0x46], [0xCA, 0xFE, 0xBA, 0xBE],
       [0xFE, 0xED, 0xFA, 0xCE]]
    if headers.any fun h => listPrefix h fdata then false
    else if containsSub fdata (strBytes "<script") ||
            containsSub fdata (strBytes "javascript:") ||
            containsSub fdata (strBytes "vbscript:") then false
    else true

/-- The worker's file-validation response, as resolved by
FileHandler.processFileInWorker. -/
def workerValidate (cfg : SecurityConfig) (fdata : List Nat) : ValidationResult :=
  if cfg.FILE_VIRUS_SCAN ∧ !virusScanClean fdata then
    { valid := false, errMsg := some "File contains malicious content" }
  else if !analyzeFileSafe fdata then
    { valid := false, errMsg := some "unsafe file" }
  else { valid := true, errMsg := none }

/-- FileHandler.validateFile. -/
def validateFile (cfg : SecurityConfig) (f : VFile) : ValidationResult :=
  if f.size > cfg.MAX_FILE_SIZE then
    { valid := false, errMsg := some "File size exceeds limit" }
  else if !cfg.ALLOWED_MIME_TYPES.contains f.mimetype then
    { valid := false, errMsg := some "File type is not allowed" }
  else
    let sigOk :=
      match FILE_SIGNATURES f.mimetype with
      | some sigs => sigs.any fun sig =>
          decide (f.fdata.length ≥ sig.length) && listPrefix sig f.fdata
      | none => true
    if !sigOk then { valid := false, errMsg := some "Invalid file signature" }
    else if cfg.FILE_HASHING || cfg.FILE_VIRUS_SCAN then workerValidate cfg f.fdata
    else { valid := true, errMsg := none }

/-! ### Multipart body parsing (src/core/request-parser.ts)

RequestParser.parseMultipart splits the raw body on the literal
delimiter made of two dashes and the boundary, then folds over the
parts.  The fuel arguments of the loops equal the length of the list
being consumed, which each iteration shortens, so they never run out. -/

structure RequestBody where
  fields : List (String × String)
  files : List (String × VFile)
deriving DecidableEq

def emptyBody : RequestBody := { fields := [], files := [] }

/-- RequestParser.splitBuffer: fragments between occurrences of the
delimiter, empty fragments discarded. -/
def splitBufferGo (delim : List Nat) : Nat → List Nat → List (List Nat)
  | 0, buf => if buf = [] then [] else [buf]
  | fuel + 1, buf =>
    match indexOfSub buf delim with
    | none => if buf = [] then [] else [buf]
    | some i =>
      (if i > 0 then [buf.take i] else []) ++
      splitBufferGo delim fuel (buf.drop (i + delim.length))

def splitBuffer (buf delim : List Nat) : List (List Nat) :=
  splitBufferGo delim buf.length buf

/-- RequestParser.findHeaderEnd: first CRLFCRLF. -/
def findHeaderEnd (part : List Nat) : Option Nat :=
  indexOfSub part [13, 10, 13, 10]

/-- String.prototype.split on a literal separator, keeping empty
fragments, as JS does.  Fuel is the input length plus one. -/
def splitStrGo (delim : List Char) : Nat → List Char → List (List Char)
  | 0, cs => [cs]
  | fuel + 1, cs =>
    match indexOfSub cs delim with
    | none => [cs]
    | some i => cs.take i :: splitStrGo delim fuel (cs.drop (i + delim.length))

def splitStr (s : String) (delim : String) : List String :=
  (splitStrGo delim.toList (s.toList.length + 1) s.toList).map String.mk

/-- String.prototype.trim over ASCII whitespace. -/
def jsTrim (s : String) : String :=
  String.mk ((s.toList.dropWhile isJsSpace).reverse.dropWhile isJsSpace).reverse

def jsLower (s : String) : String := String.mk (s.toList.map Char.toLower)

/-- RequestParser.parseHeaders: colon-separated lines, keys trimmed
and lower-cased, later lines overwriting earlier keys. -/
def parseHeaders (headerString : String) : List (String × String) :=
  (splitStr headerString "\r\n").foldl
    (fun hs line =>
      match line.toList.findIdx? (· = ':') with
      | none => hs
      | some cIdx =>
        let key := jsLower (jsTrim (String.mk (line.toList.take cIdx)))
        let value := jsTrim (String.mk (line.toList.drop (cIdx + 1)))
        setA hs key value)
    []

/-- First match of an attribute pattern such as name="([^"]+)": scan
for the literal, then a nonempty run of non-quote characters closed by
a quote; on failure resume the scan one character later. -/
def scanAttr (pat : List Char) : List Char → Option String
  | [] => none
  | c :: rest =>
    if listPrefix pat (c :: rest) then
      let after := (c :: rest).drop pat.length
      let run := after.takeWhile fun ch => ch ≠ Char.ofNat 34
      if run ≠ [] ∧ (after.drop run.length).head? = some (Char.ofNat 34) then
        some (String.mk run)
      else scanAttr pat rest
    else scanAttr pat rest

def namePat : List Char := "name=".toList ++ [Char.ofNat 34]

def filenamePat : List Char := "filename=".toList ++ [Char.ofNat 34]

/-- RequestParser.cleanFileContent: strip all trailing LF and CR bytes. -/
def cleanFileContent (content : List Nat) : List Nat :=
  (content.reverse.dropWhile fun b => b = 0x0A ∨ b = 0x0D).reverse

/-- The replace of the single trailing CRLF on a field value. -/
def stripCrlfSuffix (s : String) : String :=
  if s.toList.reverse.take 2 = ['\n', '\r'] then
    String.mk (s.toList.take (s.toList.length - 2))
  else s

/-- A JS or-default over an optional string: an absent value and the
empty string are both falsy. -/
def strOrDefault (v : Option String) (d : String) : String :=
  match v with
  | some s => if s = "" then d else s
  | none => d

/-- The body of the per-part loop of RequestParser.parseMultipart. -/
def processPart (cfg : SecurityConfig) (body : RequestBody) (part : List Nat) :
    RequestBody :=
  if part = [] then body
  else
    match findHeaderEnd part with
    | none => body
    | some idx =>
      let headers := parseHeaders (bytesToStr (part.take idx))
      let content := part.drop (idx + 4)
      match getA headers "content-disposition" with
      | none => body
      | some disp =>
        match scanAttr namePat disp.toList with
        | none => body
        | some nm =>
          let fieldName := sanitizeString nm
          match scanAttr filenamePat disp.toList with
          | some fn =>
            let filename := sanitizeFilename fn
            let mimetype := strOrDefault (getA headers "content-type") "application/octet-stream"
            let file := createFile filename (cleanFileContent content) mimetype
            if (validateFile cfg file).valid then
              { body with files := setA body.files fieldName file }
            else body
          | none =>
            let value := sanitizeString (stripCrlfSuffix (bytesToStr content))
            { body with fields := setA body.fields fieldName value }

/-- RequestParser.parseMultipart. -/
def parseMultipart (cfg : SecurityConfig) (rawBody : List Nat) (boundary : String) :
    RequestBody :=
  (splitBuffer rawBody (strBytes ("--" ++ boundary))).foldl (processPart cfg) emptyBody

/-- RequestParser.extractBoundary: the regex boundary=([^;]+) followed
by the removal of quote characters from the capture. -/
def extractBoundary : List Char → Option String
  | [] => none
  | c :: rest =>
    if listPrefix "boundary=".toList (c :: rest) then
      let after := (c :: rest).drop 9
      let cap := after.takeWhile fun ch => ch ≠ ';'
      if cap = [] then extractBoundary rest
      else some (String.mk (cap.filter fun ch =>
        ch ≠ Char.ofNat 39 ∧ ch ≠ Char.ofNat 34))
    else extractBoundary rest

/-! ### Request dispatch skeleton (src/core/server.ts handleRequest)

handleRequest resolves the route, parses the body for POST, PUT and
PATCH, then executes the middleware chain; every error thrown up to
its try lands in one catch that sends a 500 envelope.  Only the
multipart branch of RequestParser.parseBody is modelled: the JSON and
url-encoded branches are outside every claim.  The model is therefore
meaningful for requests whose content type includes
multipart/form-data, which the claim theorems assume. -/

/-- The outcome of RequestParser.parseBody on a multipart request. -/
def parseBodyMultipart (cfg : SecurityConfig) (contentType : String)
    (raw : List Nat) : Except String RequestBody :=
  match extractBoundary contentType.toList with
  | none => Except.error "Invalid multipart boundary"
  | some b => Except.ok (parseMultipart cfg raw b)

inductive DispatchOutcome where
  /-- No handler found: the 404 envelope is sent. -/
  | notFound
  /-- The catch of handleRequest sent an error envelope with this status. -/
  | errorResponse (status : Nat)
  /-- The middleware chain ran, ending in the handler. -/
  | handled
deriving DecidableEq

/-- The control skeleton of VeloxServer.handleRequest for a request
whose content type includes multipart/form-data: routeFound abstracts
the router's answer. -/
def handleRequestMultipart (cfg : SecurityConfig) (routeFound : Bool)
    (method : String) (contentType : String) (raw : List Nat) : DispatchOutcome :=
  if !routeFound then .notFound
  else if method = "POST" ∨ method = "PUT" ∨ method = "PATCH" then
    match parseBodyMultipart cfg contentType raw with
    | Except.error _ => .errorResponse 500
    | Except.ok _ => .handled
  else .handled

/-! ### FastRouter (src/utils/fast-router.ts)

Static routes live in a per-method table, dynamic routes in a
per-method list in registration order, resolved results in a cache
keyed by the method, a colon and the path.  A dynamic pattern is
compiled per segment: a :name segment becomes one no-slash capture, a
segment starting with a star becomes one capture of the rest, any
other segment is regex-escaped so it matches itself literally.
decodeURIComponent is kept abstract as a parameter dec, since no claim
depends on the decoded value. -/

inductive Seg where
  | lit (s : String)
  | par (name : String)
  | star
deriving DecidableEq

structure CompiledRoute where
  handler : Nat
  middlewareIds : List Nat
  pattern : Option (List Seg)
  staticMatch : Bool
  params : Option (List (String × String))
deriving DecidableEq

def toSeg (s : String) : Seg :=
  if s.toList.head? = some ':' then .par (String.mk (s.toList.drop 1))
  else if s.toList.head? = some '*' then .star
  else .lit s

def compileDynamicRoute (path : String) (h : Nat) (mw : List Nat) : CompiledRoute where
  handler := h
  middlewareIds := mw
  pattern := some ((splitStr path "/").map toSeg)
  staticMatch := false
  params := none

def dropPrefixChars : List Char → List Char → Option (List Char)
  | [], cs => some cs
  | _ :: _, [] => none
  | p :: ps, c :: cs => if p = c then dropPrefixChars ps cs else none

/-- The compiled regex: segment pieces joined by literal slashes. -/
def segItems (segs : List Seg) : List Seg := List.intersperse (.lit "/") segs

/-- Matching of the compiled pieces against the path, returning the
captures in order.  A no-slash capture is forced to its maximal run
because the piece after it starts with a slash or is the end; a star
capture is greedy with backtracking, longest split first. -/
def matchItems : List Seg → List Char → Option (List (List Char))
  | [], cs => if cs.isEmpty then some [] else none
  | .lit l :: rest, cs =>
    match dropPrefixChars l.toList cs with
    | some cs' => matchItems rest cs'
    | none => none
  | .par _ :: rest, cs =>
    let run := cs.takeWhile (· ≠ '/')
    if run.isEmpty then none
    else (matchItems rest (cs.drop run.length)).map (run :: ·)
  | .star :: rest, cs =>
    (List.range (cs.length + 1)).reverse.findSome? fun k =>
      (matchItems rest (cs.drop k)).map (cs.take k :: ·)

def paramNamesOf (segs : List Seg) : List String :=
  segs.filterMap fun s =>
    match s with
    | .par n => some n
    | .star => some "wildcard"
    | .lit _ => none

/-- The compiled paramExtractor: on a regex match, zip the parameter
names with the decoded captures into a params object. -/
def extractParams (dec : String → String) (segs : List Seg) (path : String) :
    Option (List (String × String)) :=
  (matchItems (segItems segs) path.toList).map fun caps =>
    ((paramNamesOf segs).zip (caps.map fun c => dec (String.mk c))).foldl
      (fun acc nv => setA acc nv.1 nv.2) []

structure FastRouter where
  pfx : Option String
  statics : List (String × List (String × CompiledRoute))
  dyns : List (String × List CompiledRoute)
  cache : List (List Char × CompiledRoute)
deriving DecidableEq

def jsUpper (s : String) : String := String.mk (s.toList.map Char.toUpper)

def applyPfx (pfx : Option String) (p : String) : String :=
  match pfx with
  | some q => q ++ p
  | none => p

def isDynPath (p : String) : Bool := p.toList.contains ':' || p.toList.contains '*'

/-- FastRouter.addRoute. -/
def addRoute (r : FastRouter) (method path : String) (h : Nat) (mw : List Nat) :
    FastRouter :=
  let M := jsUpper method
  let p := applyPfx r.pfx path
  let r1 :=
    if (getA r.statics M).isNone then
      { r with statics := setA r.statics M [], dyns := setA r.dyns M [] }
    else r
  if isDynPath p then
    { r1 with
      dyns := setA r1.dyns M (((getA r1.dyns M).getD []) ++ [compileDynamicRoute p h mw]) }
  else
    { r1 with
      statics := setA r1.statics M
        (setA ((getA r1.statics M).getD []) p
          { handler := h, middlewareIds := mw, pattern := none,
            staticMatch := true, params := none }) }

/-- The string key METHOD:PATH of the route cache. -/
def cacheKey (M p : String) : List Char := M.toList ++ ':' :: p.toList

/-- FastRouter.cacheRoute: insert only below the 10000-entry limit. -/
def cachePut (r : FastRouter) (key : List Char) (route : CompiledRoute) : FastRouter :=
  if r.cache.length < 10000 then { r with cache := setA r.cache key route } else r

/-- The dynamic-route scan: first compiled pattern whose extractor
succeeds, in list order. -/
def firstDynMatch (dec : String → String) (routes : List CompiledRoute)
    (path : String) : Option CompiledRoute :=
  routes.findSome? fun rt =>
    match rt.pattern with
    | some segs => (extractParams dec segs path).map fun ps => { rt with params := some ps }
    | none => none

def staticFind (r : FastRouter) (M p : String) : Option CompiledRoute :=
  (getA r.statics M).bind fun tbl => getA tbl p

/-- The cache-free resolution: static table first, then the dynamic
list in registration order. -/
def computeRoute (dec : String → String) (r : FastRouter) (M p : String) :
    Option CompiledRoute :=
  match staticFind r M p with
  | some rt => some rt
  | none => firstDynMatch dec ((getA r.dyns M).getD []) p

/-- FastRouter.findRoute: cache, then static, then dynamic; hits on
the static and dynamic paths populate the cache. -/
def findRoute (dec : String → String) (r : FastRouter) (method path : String) :
    Option CompiledRoute × FastRouter :=
  let M := jsUpper method
  let key := cacheKey M path
  match getA r.cache key with
  | some rt => (some rt, r)
  | none =>
    match staticFind r M path with
    | some rt => (some rt, cachePut r key rt)
    | none =>
      match firstDynMatch dec ((getA r.dyns M).getD []) path with
      | some rt => (some rt, cachePut r key rt)
      | none => (none, r)

structure Registration where
  method : String
  path : String
  handler : Nat
  mws : List Nat
deriving DecidableEq

def emptyRouter (pfx : Option String) : FastRouter :=
  { pfx := pfx, statics := [], dyns := [], cache := [] }

/-- A router built by a sequence of registrations. -/
def buildRouter (pfx : Option String) (regs : List Registration) : FastRouter :=
  regs.foldl (fun r g => addRoute r g.method g.path g.handler g.mws) (emptyRouter pfx)

/-- A sequence of resolutions threading the router state. -/
def runResolves (dec : String → String) :
    FastRouter → List (String × String) → List (Option CompiledRoute) × FastRouter
  | r, [] => ([], r)
  | r, c :: cs =>
    let step := findRoute dec r c.1 c.2
    let rest := runResolves dec step.2 cs
    (step.1 :: rest.1, rest.2)

/-! ### Middleware chain executor (src/core/router.ts
executeMiddlewareChain)

The executor keeps one index over the middleware list; its next
callback throws a passed error, runs the middleware at the index
(incrementing it) awaiting a returned promise, or, past the end, runs
the handler; its try blocks rethrow what they catch.  A middleware is
modelled by what it does around its single allowed call of next;
synchronous and awaited asynchronous throws land in the same rethrow,
so the model does not distinguish them.  Errors are labelled by
numbers, run events record which middleware index or the handler ran,
in order. -/

inductive MwBeh where
  /-- Calls next() once and completes; an error of the rest propagates
  through the await. -/
  | advance
  /-- Calls next(err): the executor throws that error at once. -/
  | advanceErr (e : Nat)
  /-- Completes without ever calling next. -/
  | halt
  /-- Throws before calling next. -/
  | throwE (e : Nat)
  /-- Calls next() once and, when the rest succeeds, throws after it. -/
  | advanceThenThrow (e : Nat)
deriving DecidableEq

inductive HandlerBeh where
  | ok
  | throwE (e : Nat)
deriving DecidableEq

inductive RunEv where
  | mw (i : Nat)
  | handler
deriving DecidableEq

/-- One invocation of next with the index at i and the given error
argument, over the remaining middleware; returns the chain's outcome
and the run events it produced. -/
def runChain (h : HandlerBeh) : Option Nat → Nat → List MwBeh →
    Except Nat Unit × List RunEv
  | some e, _, _ => (Except.error e, [])
  | none, _, [] =>
    match h with
    | .ok => (Except.ok (), [RunEv.handler])
    | .throwE e => (Except.error e, [RunEv.handler])
  | none, i, m :: rest =>
    match m with
    | .advance =>
      let k := runChain h none (i + 1) rest
      (k.1, RunEv.mw i :: k.2)
    | .advanceErr e => (Except.error e, [RunEv.mw i])
    | .halt => (Except.ok (), [RunEv.mw i])
    | .throwE e => (Except.error e, [RunEv.mw i])
    | .advanceThenThrow e =>
      let k := runChain h none (i + 1) rest
      match k.1 with
      | Except.ok _ => (Except.error e, RunEv.mw i :: k.2)
      | Except.error e2 => (Except.error e2, RunEv.mw i :: k.2)

/-- VeloxRouter.executeMiddlewareChain: the initial await next(). -/
def executeMiddlewareChain (mws : List MwBeh) (h : HandlerBeh) :
    Except Nat Unit × List RunEv :=
  runChain h none 0 mws

/-! ### Worker pool (src/workers/worker-manager.ts)

The pool state carries the worker roster, the pending queue, the
active-job map keyed by task id, and the callers' settled outcomes.
A promise still pending has no entry in outcomes; timers are implicit:
a task timeout is armed exactly while its job entry exists, a restart
timer while its scheduledRestarts entry exists, so firing one is an
event applicable in those states.  Message payloads are opaque
numbers; the Error values of the source are mapped to the labels of
WorkerOutcome. -/

structure WorkerTask where
  id : String
  ttype : String
  tdata : Nat
  /-- The optional per-task timeout in ms. -/
  timeoutMs : Option Nat
deriving DecidableEq

structure ActiveJob where
  worker : Nat
  /-- The ms the armed timer was started with: task.timeout falsy
  defaults to 30000. -/
  tmo : Nat
deriving DecidableEq

structure QEntry where
  task : WorkerTask
  /-- Whether the resolve and reject callbacks were attached: a
  submission rejected for overflow returns before attaching them. -/
  hasCallbacks : Bool
deriving DecidableEq

inductive WorkerOutcome where
  /-- resolve(response.data). -/
  | ok (outData : Nat)
  /-- The queue-full rejection of executeTask. -/
  | errQueueFull
  /-- The rejection of the task timeout timer. -/
  | errTimeout (taskId : String) (ms : Nat)
  /-- The worker-restarted rejection of restartWorker. -/
  | errWorkerRestarted
  /-- The shutdown rejection. -/
  | errShutdown
  /-- reject on a failure report from the worker. -/
  | errWorker (msg : String)
deriving DecidableEq

structure PoolState where
  workers : List Nat
  queue : List QEntry
  activeJobs : List (String × ActiveJob)
  outcomes : List (String × WorkerOutcome)
  shuttingDown : Bool
  /-- Armed worker-restart timers: delay in ms and the worker slot. -/
  scheduledRestarts : List (Nat × Nat)
  /-- The source of fresh worker handles. -/
  nextHandle : Nat
deriving DecidableEq

/-- task.timeout or 30000, with 0 falsy as in JS. -/
def timeoutOrDefault (t : Option Nat) : Nat :=
  match t with
  | some n => if n = 0 then 30000 else n
  | none => 30000

/-- getAvailableWorker: first worker no active job references. -/
def getAvailableWorker (s : PoolState) : Option Nat :=
  s.workers.find? fun w => !(s.activeJobs.any fun j => j.2.worker = w)

/-- assignTask: store the job with its armed timer and post the task
to the worker. -/
def assignTask (s : PoolState) (w : Nat) (t : WorkerTask) : PoolState :=
  { s with activeJobs := setA s.activeJobs t.id ⟨w, timeoutOrDefault t.timeoutMs⟩ }

/-- executeTask: assign to an idle worker, else push onto the queue;
the capacity check runs after the push and rejects the newest
submission, leaving the pushed entry behind without callbacks. -/
def executeTask (s : PoolState) (t : WorkerTask) : PoolState :=
  match getAvailableWorker s with
  | some w => assignTask s w t
  | none =>
    let q1 := s.queue ++ [⟨t, false⟩]
    if q1.length > 1000 then
      { s with queue := q1, outcomes := setA s.outcomes t.id .errQueueFull }
    else
      { s with queue := q1.set (q1.length - 1) ⟨t, true⟩ }

/-- processQueue: drain queued tasks onto idle workers; entries
without callbacks are discarded.  Fuel is the queue length, which
bounds the loop. -/
def drainQueue : Nat → PoolState → PoolState
  | 0, s => s
  | fuel + 1, s =>
    match s.queue with
    | [] => s
    | e :: rest =>
      match getAvailableWorker s with
      | none => s
      | some w =>
        let s1 := { s with queue := rest }
        let s2 := if e.hasCallbacks then assignTask s1 w e.task else s1
        drainQueue fuel s2

def processQueue (s : PoolState) : PoolState := drainQueue s.queue.length s

/-- The task-timeout timer fires: the job entry is removed and the
caller rejected; the worker is untouched. -/
def fireTaskTimeout (s : PoolState) (tid : String) : PoolState :=
  match getA s.activeJobs tid with
  | none => s
  | some job =>
    { s with
      activeJobs := delA s.activeJobs tid,
      outcomes := setA s.outcomes tid (.errTimeout tid job.tmo) }

structure WorkerResponse where
  success : Bool
  requestId : String
  outData : Nat
  errMsg : String
deriving DecidableEq

/-- handleWorkerResponse: drop a falsy or unmatched requestId, else
settle the caller, clear the timer and drain the queue. -/
def handleWorkerResponse (s : PoolState) (resp : WorkerResponse) : PoolState :=
  if resp.requestId = "" then s
  else
    match getA s.activeJobs resp.requestId with
    | none => s
    | some _ =>
      let s1 :=
        { s with
          activeJobs := delA s.activeJobs resp.requestId,
          outcomes := setA s.outcomes resp.requestId
            (if resp.success then .ok resp.outData
             else .errWorker (if resp.errMsg = "" then "Worker error" else resp.errMsg)) }
      processQueue s1

/-- createWorker: push a fresh worker handle. -/
def createWorker (s : PoolState) : PoolState :=
  { s with workers := s.workers ++ [s.nextHandle], nextHandle := s.nextHandle + 1 }

/-- restartWorker, run by the error and non-zero-exit listeners while
not shutting down: drop the dead worker from the roster, reject every
job assigned to it, and arm the fixed 1000 ms restart timer. -/
def restartWorker (s : PoolState) (old : Nat) (slot : Nat) : PoolState :=
  if s.shuttingDown then s
  else
    let victims := s.activeJobs.filter fun j => j.2.worker = old
    { s with
      workers := eraseFirst s.workers old,
      activeJobs := s.activeJobs.filter fun j => !(j.2.worker = old),
      outcomes := victims.foldl (fun o j => setA o j.1 .errWorkerRestarted) s.outcomes,
      scheduledRestarts := s.scheduledRestarts ++ [(1000, slot)] }

/-- The armed restart timer fires: spawn the replacement and attempt a
queue drain. -/
def fireRestartTimer (s : PoolState) : PoolState :=
  match s.scheduledRestarts with
  | [] => s
  | _ :: rest => processQueue (createWorker { s with scheduledRestarts := rest })

/-! ### VeloxRouter (src/core/router.ts)

VeloxRouter keeps one per-method object, routeCache, keyed by the
registered pattern path, in which every route, static or dynamic,
carries a compiled regex: a static path compiles to its own escaped
literal.  findRoute first looks the resolved path up as an exact key
of that object and only then scans all its entries in insertion order
against their regexes.  The routes object, used only by getRoutes and
mount, and the presentational route-info of the result are not
modelled. -/

structure VRoute where
  handler : Nat
  middlewareIds : List Nat
  paramNames : List String
  segs : List Seg
deriving DecidableEq

structure VRouter where
  vpfx : Option String
  /-- Router-level middleware, prepended to each route at registration. -/
  vmw : List Nat
  /-- routeCache: per HTTP method, the insertion-ordered object of
  pattern path to compiled route. -/
  vcache : List (String × List (String × VRoute))
deriving DecidableEq

/-- The routeCache of a fresh VeloxRouter: its method tables exist for
exactly the seven HTTP verbs. -/
def emptyV (pfx : Option String) : VRouter where
  vpfx := pfx
  vmw := []
  vcache := [("GET", []), ("POST", []), ("PUT", []), ("DELETE", []),
             ("PATCH", []), ("HEAD", []), ("OPTIONS", [])]

/-- VeloxRouter.addRoute with addToCache: compile the full path and
store it under the pattern-path key of the method's object. -/
def vAddRoute (vr : VRouter) (m path : String) (h : Nat) (mws : List Nat) : VRouter :=
  let fullPath := applyPfx vr.vpfx path
  let segs := (splitStr fullPath "/").map toSeg
  { vr with
    vcache := setA vr.vcache m (setA ((getA vr.vcache m).getD []) fullPath
      { handler := h, middlewareIds := vr.vmw ++ mws,
        paramNames := paramNamesOf segs, segs := segs }) }

def vBuild (pfx : Option String) (regs : List Registration) : VRouter :=
  regs.foldl (fun vr g => vAddRoute vr g.method g.path g.handler g.mws) (emptyV pfx)

/-- The regex scan of VeloxRouter.findRoute: first entry of the
method's object, in insertion order, whose regex matches; parameters
are url-decoded and sanitized positionally. -/
def vScan (dec : String → String) (tbl : List (String × VRoute)) (path : String) :
    Option (Nat × List Nat × List (String × String)) :=
  tbl.findSome? fun e =>
    (matchItems (segItems e.2.segs) path.toList).map fun caps =>
      (e.2.handler, e.2.middlewareIds,
        (e.2.paramNames.zip (caps.map fun c => sanitizeString (dec (String.mk c)))).foldl
          (fun acc nv => setA acc nv.1 nv.2) [])

/-- VeloxRouter.findRoute: exact pattern-path key first, with empty
params, then the regex scan. -/
def vFindRoute (dec : String → String) (vr : VRouter) (method path : String) :
    Option (Nat × List Nat × List (String × String)) :=
  let tbl := (getA vr.vcache (jsUpper method)).getD []
  match getA tbl path with
  | some rt => some (rt.handler, rt.middlewareIds, [])
  | none => vScan dec tbl path

def notColon (c : Char) : Bool := c != ':'

/-- The method half of a cache key: the characters before the first
colon.  Methods are HTTP verbs and contain no colon, so this inverts
cacheKey on every key the resolver writes. -/
def keyMethod (k : List Char) : List Char := k.takeWhile notColon

/-- A cache entry is consistent when the cache-free resolution of the
method and path encoded in its key returns exactly the stored route. -/
def entryOK (dec : String → String) (r0 : FastRouter) (e : List Char × CompiledRoute) :
    Prop :=
  computeRoute dec r0 (String.mk (keyMethod e.1))
    (String.mk (e.1.drop ((keyMethod e.1).length + 1))) = some e.2

/-- The resolver invariant: resolution never changes the route tables
and only ever caches consistent entries. -/
def RouterInv (dec : String → String) (r0 r : FastRouter) : Prop :=
  r.statics = r0.statics ∧ r.dyns = r0.dyns ∧ ∀ e ∈ r.cache, entryOK dec r0 e

/-- Every route the static tables resolve carries the static marker
and no pattern and no parameters, as addRoute builds them. -/
def StaticsOK (r : FastRouter) : Prop :=
  ∀ M q rt, staticFind r M q = some rt →
    rt.staticMatch = true ∧ rt.params = none ∧ rt.pattern = none

/-- A method key absent from the static tables has no dynamic routes
either: addRoute initialises both tables together. -/
def DynInit (r : FastRouter) : Prop :=
  ∀ M, getA r.statics M = none → (getA r.dyns M).getD [] = []

/-- The malformed-part conditions of the multipart parser: an empty
fragment, a part without the double-CRLF header separator, a part
without a Content-Disposition header, or one whose disposition has no
name attribute. -/
def malformedPart (part : List Nat) : Prop :=
  part = [] ∨ findHeaderEnd part = none ∨
  (∃ idx, findHeaderEnd part = some idx ∧
    getA (parseHeaders (bytesToStr (part.take idx))) "content-disposition" = none) ∨
  (∃ idx disp, findHeaderEnd part = some idx ∧
    getA (parseHeaders (bytesToStr (part.take idx))) "content-disposition" = some disp ∧
    scanAttr namePat disp.toList = none)

/-! ### Concrete inputs used by the example theorems and witnesses. -/

/-- A multipart body with boundary X: one field part name=Ada and one
file part a.txt whose content embeds an internal CRLF. -/
def c5Body : List Nat := strBytes
  ("--X\r\nContent-Disposition: form-data; name=\"name\"\r\n\r\nAda\r\n--X\r\nContent-Disposition: form-data; name=\"file\"; filename=\"a.txt\"\r\nContent-Type: text/plain\r\n\r\nhello\r\nworld\r\n--X--\r\n")

/-- A multipart body whose file part has no Content-Type header, so
its mime type defaults to application/octet-stream. -/
def c10Body : List Nat := strBytes
  ("--X\r\nContent-Disposition: form-data; name=\"name\"\r\n\r\nAda\r\n--X\r\nContent-Disposition: form-data; name=\"file\"; filename=\"a.bin\"\r\n\r\npayload\r\n--X--\r\n")

/-- A pool whose single worker is busy and whose pending queue already
holds 1000 tasks. -/
def fullQueuePool : PoolState where
  workers := [0]
  queue := List.replicate 1000 { task := { id := "queued", ttype := "file-validation", tdata := 0, timeoutMs := none }, hasCallbacks := true }
  activeJobs := [("running", { worker := 0, tmo := 30000 })]
  outcomes := []
  shuttingDown := false
  scheduledRestarts := []
  nextHandle := 1

def overflowTask : WorkerTask where
  id := "overflow"
  ttype := "file-validation"
  tdata := 7
  timeoutMs := none

/-- A pool with two workers, one busy with task t1. -/
def smallPool : PoolState where
  workers := [0, 1]
  queue := []
  activeJobs := [("t1", { worker := 0, tmo := 30000 })]
  outcomes := []
  shuttingDown := false
  scheduledRestarts := []
  nextHandle := 2

/-- Registrations and resolutions exercising the router theorems: a
static route shadowed by an earlier dynamic pattern, plus two
overlapping dynamic patterns. -/
def demoRegs : List Registration :=
  [{ method := "GET", path := "/users/:id", handler := 1, mws := [] },
   { method := "get", path := "/users/all", handler := 2, mws := [5] },
   { method := "GET", path := "/:a/:b", handler := 3, mws := [] }]

def demoCalls : List (String × String) :=
  [("get", "/users/all"), ("GET", "/users/7"), ("get", "/users/all"), ("GET", "/users/7")]

/-- Two overlapping dynamic patterns, the more general one registered
first: resolving the literal path /users/:id exposes the exact-key
shortcut of VeloxRouter.findRoute. -/
def shadowRegs : List Registration :=
  [{ method := "GET", path := "/:a/:b", handler := 1, mws := [] },
   { method := "GET", path := "/users/:id", handler := 2, mws := [] }]

/-! ## Theorems -/

theorem getA_mem {α β : Type} [DecidableEq α] {l : List (α × β)} {k : α} {v : β}
    (h : getA l k = some v) : (k, v) ∈ l := by
  induction l with
  | nil => simp [getA] at h
  | cons e t ih =>
    obtain ⟨k', v'⟩ := e
    by_cases hk : k' = k
    · subst hk
      simp [getA] at h
      simp [h]
    · simp [getA, hk] at h
      simp [ih h]

theorem containsSub_cons_false {α : Type} [DecidableEq α] {c : α} {rest pat : List α}
    (h : containsSub (c :: rest) pat = false) :
    listPrefix pat (c :: rest) = false ∧ containsSub rest pat = false := by
  cases hp : listPrefix pat (c :: rest) with
  | false =>
    refine ⟨rfl, ?_⟩
    simpa [containsSub, indexOfSub, hp] using h
  | true => simp [containsSub, indexOfSub, hp] at h

theorem extractBoundary_eq_none (cs : List Char)
    (h : containsSub cs ("boundary=".toList) = false) : extractBoundary cs = none := by
  induction cs with
  | nil => rfl
  | cons c rest ih =>
    obtain ⟨hp, hrest⟩ := containsSub_cons_false h
    simp only [extractBoundary, hp, Bool.false_eq_true, if_false]
    exact ih hrest

set_option maxRecDepth 200000 in
/-- Claim C5: parsing the multipart body with boundary X returns the
field name equal to Ada and a file entry whose content is exactly the
bytes hello CRLF world: the internal CRLF is preserved and only the
trailing delimiter CRLF is stripped. -/
theorem c5_multipart_field_and_file_exact :
    getA (parseMultipart DEFAULT_SECURITY_CONFIG c5Body "X").fields "name" = some "Ada" ∧
    getA (parseMultipart DEFAULT_SECURITY_CONFIG c5Body "X").files "file" =
      some { name := "a.txt", fdata := strBytes "hello\r\nworld",
             mimetype := "text/plain", size := 12 } := by decide

/-- Claim C3, counterexample to the claimed status: a multipart
request without a boundary token on a routed POST is rejected through
the catch of handleRequest with status 500, not 400. -/
theorem c3_counterexample :
    handleRequestMultipart DEFAULT_SECURITY_CONFIG true "POST" "multipart/form-data" [] =
      DispatchOutcome.errorResponse 500 ∧
    handleRequestMultipart DEFAULT_SECURITY_CONFIG true "POST" "multipart/form-data" [] ≠
      DispatchOutcome.errorResponse 400 := by decide

set_option linter.unusedVariables false in
/-- Claim C3 (amended): a request whose content type declares
multipart/form-data without any boundary= token fails body parsing
with the invalid-boundary error, the request is rejected with status
500 by the dispatcher error path before dispatch, and the route
handler is never invoked.  The hmp hypothesis scopes the statement to
the multipart requests the dispatch model covers. -/
theorem c3_missing_boundary_rejected_500 (cfg : SecurityConfig) (found : Bool)
    (method contentType : String) (raw : List Nat)
    (hmp : containsSub contentType.toList ("multipart/form-data".toList) = true)
    (hnb : containsSub contentType.toList ("boundary=".toList) = false) :
    parseBodyMultipart cfg contentType raw = Except.error "Invalid multipart boundary" ∧
    (found = true → (method = "POST" ∨ method = "PUT" ∨ method = "PATCH") →
      handleRequestMultipart cfg found method contentType raw =
        DispatchOutcome.errorResponse 500 ∧
      handleRequestMultipart cfg found method contentType raw ≠ DispatchOutcome.handled) := by
  have hb : extractBoundary contentType.data = none :=
    extractBoundary_eq_none contentType.toList hnb
  refine ⟨by simp [parseBodyMultipart, hb], fun hf hm => ?_⟩
  constructor
  · simp [handleRequestMultipart, hf, hm, parseBodyMultipart, hb]
  · simp [handleRequestMultipart, hf, hm, parseBodyMultipart, hb]

theorem c3_witness :
    parseBodyMultipart DEFAULT_SECURITY_CONFIG "multipart/form-data" [] =
      Except.error "Invalid multipart boundary" :=
  (c3_missing_boundary_rejected_500 DEFAULT_SECURITY_CONFIG true "POST"
    "multipart/form-data" [] (by decide) (by decide)).1

set_option maxRecDepth 100000 in
/-- Claim C2, the code bug at the failing input: with the pending
queue at its 1000-task capacity and no idle worker, the newest
submission is rejected as queue-full immediately, as the claim states,
but executeTask pushed the task before the capacity check and leaves
it behind, so the queue grows to 1001 entries. -/
theorem c2_queue_overflow_grows_queue :
    getA (executeTask fullQueuePool overflowTask).outcomes "overflow" =
      some WorkerOutcome.errQueueFull ∧
    fullQueuePool.queue.length = 1000 ∧
    (executeTask fullQueuePool overflowTask).queue.length = 1001 := by decide

theorem runChain_advance_prefix (h : HandlerBeh) (pre : List MwBeh) :
    ∀ (i : Nat) (rest : List MwBeh), (∀ m ∈ pre, m = MwBeh.advance) →
    runChain h none i (pre ++ rest) =
      ((runChain h none (i + pre.length) rest).1,
       (List.range' i pre.length).map RunEv.mw ++ (runChain h none (i + pre.length) rest).2) := by
  induction pre with
  | nil => intro i rest _; simp [List.range']
  | cons m t ih =>
    intro i rest hall
    have hm : m = MwBeh.advance := hall m (by simp)
    subst hm
    have ht : ∀ x ∈ t, x = MwBeh.advance := fun x hx => hall x (by simp [hx])
    have harith : i + (t.length + 1) = (i + 1) + t.length := by omega
    simp only [List.cons_append, runChain, List.append_eq, ih (i + 1) rest ht,
      List.length_cons, List.range'_succ, List.map_cons, List.cons_append, harith]

/-- Claim C8: the chain executor runs the middleware strictly in list
order ending with the handler, whose error propagates; a middleware
that completes without invoking next halts the chain silently after
its own run, with no later middleware, no handler run and no error;
and a middleware that raises stops the chain, no later middleware or
handler runs, and the error reaches the single caller uncaught. -/
theorem c8_middleware_chain_order_halt_error :
    (∀ (mws : List MwBeh) (h : HandlerBeh), (∀ m ∈ mws, m = MwBeh.advance) →
      executeMiddlewareChain mws h =
        ((match h with
          | HandlerBeh.ok => Except.ok ()
          | HandlerBeh.throwE e => Except.error e),
         (List.range mws.length).map RunEv.mw ++ [RunEv.handler]))
    ∧ (∀ (pre post : List MwBeh) (h : HandlerBeh), (∀ m ∈ pre, m = MwBeh.advance) →
      executeMiddlewareChain (pre ++ MwBeh.halt :: post) h =
        (Except.ok (), (List.range (pre.length + 1)).map RunEv.mw))
    ∧ (∀ (pre post : List MwBeh) (h : HandlerBeh) (e : Nat),
        (∀ m ∈ pre, m = MwBeh.advance) →
      executeMiddlewareChain (pre ++ MwBeh.throwE e :: post) h =
        (Except.error e, (List.range (pre.length + 1)).map RunEv.mw)) := by
  refine ⟨fun mws h hall => ?_, fun pre post h hall => ?_, fun pre post h e hall => ?_⟩
  · have := runChain_advance_prefix h mws 0 [] hall
    simp only [List.append_nil] at this
    rw [executeMiddlewareChain, this]
    cases h <;> simp [runChain, List.range_eq_range']
  · have := runChain_advance_prefix h pre 0 (MwBeh.halt :: post) hall
    rw [executeMiddlewareChain, this]
    simp [runChain, List.range_succ, List.range_eq_range']
  · have := runChain_advance_prefix h pre 0 (MwBeh.throwE e :: post) hall
    rw [executeMiddlewareChain, this]
    simp [runChain, List.range_succ, List.range_eq_range']

theorem getA_eq_none_of_not_mem_keys {α β : Type} [DecidableEq α] {l : List (α × β)}
    {k : α} (h : k ∉ l.map Prod.fst) : getA l k = none := by
  induction l with
  | nil => rfl
  | cons e t ih =>
    obtain ⟨k', v'⟩ := e
    simp only [List.map_cons, List.mem_cons] at h
    push_neg at h
    have hne : ¬ k' = k := fun hh => h.1 hh.symm
    simp [getA, hne, ih h.2]

theorem getA_delA_self {α β : Type} [DecidableEq α] {l : List (α × β)} {k : α}
    (hnd : (l.map Prod.fst).Nodup) : getA (delA l k) k = none := by
  induction l with
  | nil => rfl
  | cons e t ih =>
    obtain ⟨k', v'⟩ := e
    simp only [List.map_cons, List.nodup_cons] at hnd
    by_cases hk : k' = k
    · subst hk
      simpa [delA] using getA_eq_none_of_not_mem_keys hnd.1
    · simp [delA, getA, hk, ih hnd.2]

theorem mem_getA_of_nodup {α β : Type} [DecidableEq α] {l : List (α × β)} {k : α} {v : β}
    (hnd : (l.map Prod.fst).Nodup) (h : (k, v) ∈ l) : getA l k = some v := by
  induction l with
  | nil => simp at h
  | cons e t ih =>
    obtain ⟨k', v'⟩ := e
    simp only [List.map_cons, List.nodup_cons] at hnd
    rcases List.mem_cons.mp h with he | ht
    · cases he
      simp [getA]
    · have hk : k' ≠ k := by
        intro hk
        subst hk
        exact hnd.1 (List.mem_map.mpr ⟨(k', v), ht, rfl⟩)
      simp [getA, hk, ih hnd.2 ht]

theorem getA_filter_of_getA {α β : Type} [DecidableEq α] {l : List (α × β)} {k : α} {v : β}
    (p : α × β → Bool) (hnd : (l.map Prod.fst).Nodup) (h : getA l k = some v) :
    getA (l.filter p) k = if p (k, v) then some v else none := by
  induction l with
  | nil => simp [getA] at h
  | cons e t ih =>
    obtain ⟨k', v'⟩ := e
    simp only [List.map_cons, List.nodup_cons] at hnd
    by_cases hk : k' = k
    · subst hk
      have hv : v' = v := by simpa [getA] using h
      subst hv
      by_cases hp : p (k', v')
      · simp [List.filter, hp, getA]
      · have hnone : getA (t.filter p) k' = none := by
          apply getA_eq_none_of_not_mem_keys
          intro hmem
          obtain ⟨⟨a, b⟩, hab, hfst⟩ := List.mem_map.mp hmem
          exact hnd.1 (List.mem_map.mpr ⟨(a, b), List.mem_of_mem_filter hab, hfst⟩)
        simp [List.filter, hp, hnone]
    · simp only [getA, if_neg hk] at h
      by_cases hp : p (k', v')
      · simp [List.filter, hp, getA, hk, ih hnd.2 h]
      · simp [List.filter, hp, ih hnd.2 h]

theorem getA_foldl_setA_const {α β γ : Type} [DecidableEq α]
    (vs : List (α × γ)) (o : List (α × β)) (c : β) (k : α) :
    getA (vs.foldl (fun acc j => setA acc j.1 c) o) k =
      if k ∈ vs.map Prod.fst then some c else getA o k := by
  induction vs generalizing o with
  | nil => simp
  | cons v t ih =>
    simp only [List.foldl_cons, List.map_cons, List.mem_cons]
    rw [ih]
    by_cases hin : k ∈ t.map Prod.fst
    · simp [hin]
    · by_cases hk : k = v.1
      · simp [hin, hk, getA_setA_eq]
      · simp [hin, hk, getA_setA_ne _ _ _ _ hk]

theorem not_mem_eraseFirst_self {α : Type} [DecidableEq α] {l : List α} {a : α}
    (hnd : l.Nodup) : a ∉ eraseFirst l a := by
  induction l with
  | nil => simp [eraseFirst]
  | cons b t ih =>
    simp only [List.nodup_cons] at hnd
    by_cases hb : b = a
    · subst hb
      simpa [eraseFirst] using hnd.1
    · simp only [eraseFirst, if_neg hb, List.mem_cons]
      push_neg
      exact ⟨fun h => hb h.symm, ih hnd.2⟩

theorem length_eraseFirst_of_mem {α : Type} [DecidableEq α] {l : List α} {a : α}
    (h : a ∈ l) : (eraseFirst l a).length = l.length - 1 := by
  induction l with
  | nil => simp at h
  | cons b t ih =>
    by_cases hb : b = a
    · simp [eraseFirst, hb]
    · have ht : a ∈ t := by
        rcases List.mem_cons.mp h with he | ht
        · exact absurd he.symm hb
        · exact ht
      have hlen : 1 ≤ t.length := List.length_pos.mpr (List.ne_nil_of_mem ht)
      simp only [eraseFirst, if_neg hb, List.length_cons, ih ht]
      omega

theorem drainQueue_workers (fuel : Nat) (s : PoolState) :
    (drainQueue fuel s).workers = s.workers := by
  induction fuel generalizing s with
  | zero => rfl
  | succ n ih =>
    rw [drainQueue]
    cases hq : s.queue with
    | nil => rfl
    | cons e rest =>
      cases hw : getAvailableWorker s with
      | none => rfl
      | some w =>
        by_cases hc : e.hasCallbacks <;> simp [hc, ih, assignTask]

theorem processQueue_workers (s : PoolState) : (processQueue s).workers = s.workers :=
  drainQueue_workers s.queue.length s

/-- Claim C6: when a task timeout fires, its pending job entry is
removed and the caller rejected with the timeout error, while the
worker roster is untouched and the assigned worker stays in it; a
later worker response carrying that requestId, and in general any
response whose requestId is falsy or matches no pending job, is
dropped without any state or outcome change. -/
theorem c6_timeout_removes_job_keeps_worker (s : PoolState) (tid : String) (job : ActiveJob)
    (hjob : getA s.activeJobs tid = some job)
    (hkeys : (s.activeJobs.map Prod.fst).Nodup) :
    getA (fireTaskTimeout s tid).activeJobs tid = none ∧
    getA (fireTaskTimeout s tid).outcomes tid =
      some (WorkerOutcome.errTimeout tid job.tmo) ∧
    (fireTaskTimeout s tid).workers = s.workers ∧
    (job.worker ∈ s.workers → job.worker ∈ (fireTaskTimeout s tid).workers) ∧
    (∀ resp : WorkerResponse, resp.requestId = tid →
      handleWorkerResponse (fireTaskTimeout s tid) resp = fireTaskTimeout s tid) ∧
    (∀ (s2 : PoolState) (resp : WorkerResponse),
      resp.requestId = "" ∨ getA s2.activeJobs resp.requestId = none →
      handleWorkerResponse s2 resp = s2) := by
  have hdrop : ∀ (s2 : PoolState) (resp : WorkerResponse),
      resp.requestId = "" ∨ getA s2.activeJobs resp.requestId = none →
      handleWorkerResponse s2 resp = s2 := by
    intro s2 resp hr
    rcases hr with hr | hr
    · simp [handleWorkerResponse, hr]
    · by_cases he : resp.requestId = ""
      · simp [handleWorkerResponse, he]
      · simp [handleWorkerResponse, he, hr]
  have hgone : getA (fireTaskTimeout s tid).activeJobs tid = none := by
    simp [fireTaskTimeout, hjob, getA_delA_self hkeys]
  refine ⟨hgone, ?_, ?_, ?_, ?_, hdrop⟩
  · simp [fireTaskTimeout, hjob, getA_setA_eq]
  · simp [fireTaskTimeout, hjob]
  · intro hw
    simpa [fireTaskTimeout, hjob] using hw
  · intro resp hr
    exact hdrop _ resp (Or.inr (hr ▸ hgone))

theorem c6_witness :
    getA (fireTaskTimeout smallPool "t1").activeJobs "t1" = none :=
  (c6_timeout_removes_job_keeps_worker smallPool "t1"
    { worker := 0, tmo := 30000 } (by decide) (by decide)).1

/-- Claim C7: a worker crash while the pool is not shutting down
removes exactly the dead worker from the roster, rejects every pending
job assigned to it with the worker-restarted error while leaving every
other job and its outcome untouched, and arms the fixed 1000 ms
restart timer; when that timer fires, a replacement worker is spawned,
restoring the pool size, and a queue drain is attempted. -/
theorem c7_crash_recovery (s : PoolState) (old slot : Nat)
    (hrun : s.shuttingDown = false)
    (hmem : old ∈ s.workers)
    (hnd : s.workers.Nodup)
    (hkeys : (s.activeJobs.map Prod.fst).Nodup)
    (hsched : s.scheduledRestarts = []) :
    (restartWorker s old slot).workers = eraseFirst s.workers old ∧
    old ∉ (restartWorker s old slot).workers ∧
    (∀ tid job, getA s.activeJobs tid = some job →
      (job.worker = old →
        getA (restartWorker s old slot).activeJobs tid = none ∧
        getA (restartWorker s old slot).outcomes tid =
          some WorkerOutcome.errWorkerRestarted) ∧
      (job.worker ≠ old →
        getA (restartWorker s old slot).activeJobs tid = some job ∧
        getA (restartWorker s old slot).outcomes tid = getA s.outcomes tid)) ∧
    (restartWorker s old slot).scheduledRestarts = [(1000, slot)] ∧
    fireRestartTimer (restartWorker s old slot) =
      processQueue (createWorker
        { restartWorker s old slot with scheduledRestarts := [] }) ∧
    (fireRestartTimer (restartWorker s old slot)).workers.length = s.workers.length := by
  have hsr : restartWorker s old slot =
      { s with
        workers := eraseFirst s.workers old,
        activeJobs := s.activeJobs.filter fun j => !(j.2.worker = old),
        outcomes := (s.activeJobs.filter fun j => j.2.worker = old).foldl
          (fun o j => setA o j.1 WorkerOutcome.errWorkerRestarted) s.outcomes,
        scheduledRestarts := s.scheduledRestarts ++ [(1000, slot)] } := by
    simp [restartWorker, hrun]
  refine ⟨by rw [hsr], ?_, ?_, ?_, ?_, ?_⟩
  · rw [hsr]
    exact not_mem_eraseFirst_self hnd
  · intro tid job hjob
    constructor
    · intro hwold
      rw [hsr]
      constructor
      · have := getA_filter_of_getA (fun j => !(j.2.worker = old)) hkeys hjob
        simpa [hwold] using this
      · rw [getA_foldl_setA_const]
        have : tid ∈ (List.map Prod.fst (s.activeJobs.filter fun j => j.2.worker = old)) := by
          refine List.mem_map.mpr ⟨(tid, job), ?_, rfl⟩
          exact List.mem_filter.mpr ⟨getA_mem hjob, by simp [hwold]⟩
        simp [this]
    · intro hwne
      rw [hsr]
      constructor
      · have := getA_filter_of_getA (fun j => !(j.2.worker = old)) hkeys hjob
        simpa [hwne] using this
      · rw [getA_foldl_setA_const]
        have hnot : tid ∉ (List.map Prod.fst (s.activeJobs.filter fun j => j.2.worker = old)) := by
          intro hmemf
          obtain ⟨⟨a, b⟩, hab, hfst⟩ := List.mem_map.mp hmemf
          obtain ⟨habl, hbw⟩ := List.mem_filter.mp hab
          cases hfst
          have h1 := mem_getA_of_nodup hkeys habl
          rw [hjob] at h1
          have hbj : b = job := by
            injection h1 with hh
            exact hh.symm
          subst hbj
          exact hwne (by simpa using hbw)
        simp [hnot]
  · rw [hsr]
    simp [hsched]
  · have hs2 : (restartWorker s old slot).scheduledRestarts = [(1000, slot)] := by
      rw [hsr]; simp [hsched]
    rw [fireRestartTimer, hs2]
  · have hs2 : (restartWorker s old slot).scheduledRestarts = [(1000, slot)] := by
      rw [hsr]; simp [hsched]
    rw [fireRestartTimer, hs2]
    rw [processQueue_workers]
    have hlen : (eraseFirst s.workers old).length = s.workers.length - 1 :=
      length_eraseFirst_of_mem hmem
    have hpos : 1 ≤ s.workers.length := List.length_pos.mpr (List.ne_nil_of_mem hmem)
    simp only [createWorker, List.length_append, List.length_cons, List.length_nil]
    rw [hsr]
    simp only [hlen]
    omega

theorem c7_witness :
    (restartWorker smallPool 0 0).workers = eraseFirst smallPool.workers 0 :=
  (c7_crash_recovery smallPool 0 0 (by decide) (by decide) (by decide)
    (by decide) (by decide)).1

theorem processPart_malformed (cfg : SecurityConfig) (body : RequestBody)
    (part : List Nat) (h : malformedPart part) : processPart cfg body part = body := by
  by_cases hp : part = []
  · simp [processPart, hp]
  · rcases h with h | h | ⟨idx, hidx, hdisp⟩ | ⟨idx, disp, hidx, hdisp, hnm⟩
    · exact absurd h hp
    · simp [processPart, hp, h]
    · simp [processPart, hp, hidx, hdisp]
    · have hnm' : scanAttr namePat disp.data = none := hnm
      simp [processPart, hp, hidx, hdisp, hnm']

theorem foldl_processPart_eraseIdx (cfg : SecurityConfig) :
    ∀ (parts : List (List Nat)) (i : Nat) (body : RequestBody) (h : i < parts.length),
      malformedPart (parts.get ⟨i, h⟩) →
      parts.foldl (processPart cfg) body = (parts.eraseIdx i).foldl (processPart cfg) body := by
  intro parts
  induction parts with
  | nil => intro i body h; simp at h
  | cons p t ih =>
    intro i body h hm
    cases i with
    | zero =>
      simp only [List.get] at hm
      simp [List.eraseIdx, processPart_malformed cfg body p hm]
    | succ j =>
      simp only [List.get] at hm
      have hj : j < t.length := by simpa using h
      simp only [List.eraseIdx, List.foldl_cons]
      exact ih j (processPart cfg body p) hj hm

/-- Claim C9: a part with no double-CRLF separator, no
Content-Disposition header or no name attribute is skipped: it leaves
the accumulated body unchanged, removing it from the part list does
not change the parse result, and parseMultipart always returns the
fold over the remaining parts, never aborting the request. -/
theorem c9_malformed_part_skipped :
    (∀ (cfg : SecurityConfig) (body : RequestBody) (part : List Nat),
      malformedPart part → processPart cfg body part = body)
    ∧ (∀ (cfg : SecurityConfig) (parts : List (List Nat)) (i : Nat)
        (h : i < parts.length), malformedPart (parts.get ⟨i, h⟩) →
        parts.foldl (processPart cfg) emptyBody =
          (parts.eraseIdx i).foldl (processPart cfg) emptyBody)
    ∧ (∀ (cfg : SecurityConfig) (raw : List Nat) (boundary : String),
        parseMultipart cfg raw boundary =
          (splitBuffer raw (strBytes ("--" ++ boundary))).foldl (processPart cfg) emptyBody) :=
  ⟨processPart_malformed,
   fun cfg parts i h hm => foldl_processPart_eraseIdx cfg parts i emptyBody h hm,
   fun _ _ _ => rfl⟩

set_option maxRecDepth 200000 in
/-- Claim C10: a file part whose built file fails validation is
silently omitted: the body is unchanged and no error is surfaced; a
size above MAX_FILE_SIZE, a mime type outside the allow-list, or a
mismatched magic-byte signature each force validation to fail; a part
with no Content-Type header defaults to application/octet-stream,
which the default allow-list rejects; and on a concrete body the field
is still returned while the invalid file is dropped. -/
theorem c10_invalid_file_silently_omitted :
    (∀ (cfg : SecurityConfig) (body : RequestBody) (part : List Nat) (idx : Nat)
       (disp nm fn : String),
      part ≠ [] →
      findHeaderEnd part = some idx →
      getA (parseHeaders (bytesToStr (part.take idx))) "content-disposition" = some disp →
      scanAttr namePat disp.toList = some nm →
      scanAttr filenamePat disp.toList = some fn →
      (validateFile cfg (createFile (sanitizeFilename fn)
          (cleanFileContent (part.drop (idx + 4)))
          (strOrDefault (getA (parseHeaders (bytesToStr (part.take idx))) "content-type")
            "application/octet-stream"))).valid = false →
      processPart cfg body part = body)
    ∧ (∀ (cfg : SecurityConfig) (f : VFile), f.size > cfg.MAX_FILE_SIZE →
        (validateFile cfg f).valid = false)
    ∧ (∀ (cfg : SecurityConfig) (f : VFile),
        cfg.ALLOWED_MIME_TYPES.contains f.mimetype = false →
        (validateFile cfg f).valid = false)
    ∧ (∀ (cfg : SecurityConfig) (f : VFile) (sigs : List (List Nat)),
        FILE_SIGNATURES f.mimetype = some sigs →
        (sigs.any fun sig =>
          decide (f.fdata.length ≥ sig.length) && listPrefix sig f.fdata) = false →
        (validateFile cfg f).valid = false)
    ∧ DEFAULT_SECURITY_CONFIG.ALLOWED_MIME_TYPES.contains "application/octet-stream" = false
    ∧ (getA (parseMultipart DEFAULT_SECURITY_CONFIG c10Body "X").fields "name" = some "Ada" ∧
       (parseMultipart DEFAULT_SECURITY_CONFIG c10Body "X").files = []) := by
  refine ⟨?_, ?_, ?_, ?_, by decide, ?_⟩
  · intro cfg body part idx disp nm fn hp hidx hdisp hnm hfn hv
    have hnm' : scanAttr namePat disp.data = some nm := hnm
    have hfn' : scanAttr filenamePat disp.data = some fn := hfn
    simp [processPart, hp, hidx, hdisp, hnm', hfn', hv]
  · intro cfg f h
    simp [validateFile, h]
  · intro cfg f h
    by_cases hs : f.size > cfg.MAX_FILE_SIZE
    · simp [validateFile, hs]
    · have h' : ¬ f.mimetype ∈ cfg.ALLOWED_MIME_TYPES := by simpa using h
      simp [validateFile, hs, h']
  · intro cfg f sigs h1 h2
    by_cases hs : f.size > cfg.MAX_FILE_SIZE
    · simp [validateFile, hs]
    · by_cases hc : cfg.ALLOWED_MIME_TYPES.contains f.mimetype
      · have hc' : f.mimetype ∈ cfg.ALLOWED_MIME_TYPES := by simpa using hc
        have h2' : (sigs.any fun sig =>
            decide (sig.length ≤ f.fdata.length) && listPrefix sig f.fdata) = false := by
          simpa [ge_iff_le] using h2
        simp [validateFile, hs, hc', h1, h2']
      · have hc' : ¬ f.mimetype ∈ cfg.ALLOWED_MIME_TYPES := by simpa using hc
        simp [validateFile, hs, hc']
  · decide

theorem stringmk_toList (s : String) : String.mk s.toList = s := rfl

theorem takeWhile_key (M rest : List Char) (h : ':' ∉ M) :
    (M ++ ':' :: rest).takeWhile notColon = M := by
  induction M with
  | nil =>
    have hcb : notColon ':' = false := by simp [notColon]
    simp [List.takeWhile_cons, hcb]
  | cons c t ih =>
    simp only [List.mem_cons] at h
    push_neg at h
    have hcb : notColon c = true := by
      simp [notColon]
      exact fun e => h.1 e.symm
    simp [List.takeWhile_cons, hcb, ih h.2]

theorem drop_key (M rest : List Char) : (M ++ ':' :: rest).drop (M.length + 1) = rest := by
  have h1 : (M ++ ':' :: rest).drop M.length = ':' :: rest := List.drop_left M (':' :: rest)
  have h2 : (M ++ ':' :: rest).drop (M.length + 1) =
      ((M ++ ':' :: rest).drop M.length).drop 1 := by
    rw [List.drop_drop, Nat.add_comm]
  rw [h2, h1]
  rfl

theorem entryOK_cacheKey (dec : String → String) (r0 : FastRouter) (M p : String)
    (rt : CompiledRoute) (hm : ':' ∉ M.toList) :
    entryOK dec r0 (cacheKey M p, rt) ↔ computeRoute dec r0 M p = some rt := by
  unfold entryOK keyMethod cacheKey
  rw [takeWhile_key M.toList p.toList hm, drop_key, stringmk_toList, stringmk_toList]

theorem addRoute_cache (r : FastRouter) (m p : String) (h : Nat) (mw : List Nat) :
    (addRoute r m p h mw).cache = r.cache := by
  simp only [addRoute]
  split <;> split <;> rfl

theorem addRoute_pfx (r : FastRouter) (m p : String) (h : Nat) (mw : List Nat) :
    (addRoute r m p h mw).pfx = r.pfx := by
  simp only [addRoute]
  split <;> split <;> rfl

theorem addRoute_statics_getA (r : FastRouter) (m p : String) (hd : Nat) (mw : List Nat)
    (M : String) :
    getA (addRoute r m p hd mw).statics M =
      if M = jsUpper m then
        (if isDynPath (applyPfx r.pfx p) then some ((getA r.statics M).getD [])
         else some (setA ((getA r.statics M).getD []) (applyPfx r.pfx p)
           { handler := hd, middlewareIds := mw, pattern := none,
             staticMatch := true, params := none }))
      else getA r.statics M := by
  by_cases hinit : (getA r.statics (jsUpper m)).isNone
  · have hps : getA r.statics (jsUpper m) = none := Option.isNone_iff_eq_none.mp hinit
    by_cases hMe : M = jsUpper m
    · subst hMe
      by_cases hdyn : isDynPath (applyPfx r.pfx p) <;>
        simp [addRoute, hinit, hdyn, hps, getA_setA_eq]
    · have hMe' : M ≠ jsUpper m := hMe
      by_cases hdyn : isDynPath (applyPfx r.pfx p) <;>
        simp [addRoute, hinit, hdyn, hMe, getA_setA_ne _ _ _ _ hMe']
  · have hsome : ∃ tbl, getA r.statics (jsUpper m) = some tbl := by
      cases hg : getA r.statics (jsUpper m) with
      | none => exact absurd (by simp [hg]) hinit
      | some tbl => exact ⟨tbl, rfl⟩
    obtain ⟨tbl, htbl⟩ := hsome
    by_cases hMe : M = jsUpper m
    · subst hMe
      by_cases hdyn : isDynPath (applyPfx r.pfx p) <;>
        simp [addRoute, hinit, hdyn, htbl, getA_setA_eq]
    · have hMe' : M ≠ jsUpper m := hMe
      by_cases hdyn : isDynPath (applyPfx r.pfx p) <;>
        simp [addRoute, hinit, hdyn, hMe, getA_setA_ne _ _ _ _ hMe']

theorem addRoute_dyns_getD (r : FastRouter) (m p : String) (hd : Nat) (mw : List Nat)
    (hD : DynInit r) (M : String) :
    (getA (addRoute r m p hd mw).dyns M).getD [] =
      (getA r.dyns M).getD [] ++
        (if M = jsUpper m ∧ isDynPath (applyPfx r.pfx p)
         then [compileDynamicRoute (applyPfx r.pfx p) hd mw] else []) := by
  by_cases hinit : (getA r.statics (jsUpper m)).isNone
  · have hps : getA r.statics (jsUpper m) = none := Option.isNone_iff_eq_none.mp hinit
    have hz : (getA r.dyns (jsUpper m)).getD [] = [] := hD (jsUpper m) hps
    by_cases hMe : M = jsUpper m
    · subst hMe
      by_cases hdyn : isDynPath (applyPfx r.pfx p) <;>
        simp [addRoute, hinit, hdyn, hz, getA_setA_eq]
    · have hMe' : M ≠ jsUpper m := hMe
      by_cases hdyn : isDynPath (applyPfx r.pfx p) <;>
        simp [addRoute, hinit, hdyn, hMe, getA_setA_ne _ _ _ _ hMe']
  · by_cases hMe : M = jsUpper m
    · subst hMe
      by_cases hdyn : isDynPath (applyPfx r.pfx p) <;>
        simp [addRoute, hinit, hdyn, getA_setA_eq]
    · have hMe' : M ≠ jsUpper m := hMe
      by_cases hdyn : isDynPath (applyPfx r.pfx p) <;>
        simp [addRoute, hinit, hdyn, hMe, getA_setA_ne _ _ _ _ hMe']

theorem staticsOK_addRoute (r : FastRouter) (m p : String) (hd : Nat) (mw : List Nat)
    (h : StaticsOK r) : StaticsOK (addRoute r m p hd mw) := by
  intro M q rt hsf
  unfold staticFind at hsf
  rw [addRoute_statics_getA] at hsf
  by_cases hMe : M = jsUpper m
  · rw [if_pos hMe] at hsf
    by_cases hdyn : isDynPath (applyPfx r.pfx p)
    · rw [if_pos hdyn] at hsf
      cases hg : getA r.statics M with
      | none => rw [hg] at hsf; simp [getA] at hsf
      | some tbl =>
        rw [hg] at hsf
        simp only [Option.getD, Option.some_bind] at hsf
        exact h M q rt (by unfold staticFind; rw [hg]; exact hsf)
    · rw [if_neg hdyn] at hsf
      simp only [Option.some_bind] at hsf
      by_cases hq : q = applyPfx r.pfx p
      · subst hq
        rw [getA_setA_eq] at hsf
        cases hsf
        exact ⟨rfl, rfl, rfl⟩
      · rw [getA_setA_ne _ _ _ _ hq] at hsf
        cases hg : getA r.statics M with
        | none => rw [hg] at hsf; simp [getA] at hsf
        | some tbl =>
          rw [hg] at hsf
          exact h M q rt (by unfold staticFind; rw [hg]; exact hsf)
  · rw [if_neg hMe] at hsf
    exact h M q rt hsf

theorem dynInit_addRoute (r : FastRouter) (m p : String) (hd : Nat) (mw : List Nat)
    (h : DynInit r) : DynInit (addRoute r m p hd mw) := by
  intro M hM
  rw [addRoute_statics_getA] at hM
  rw [addRoute_dyns_getD r m p hd mw h M]
  by_cases hMe : M = jsUpper m
  · rw [if_pos hMe] at hM
    by_cases hdyn : isDynPath (applyPfx r.pfx p)
    · rw [if_pos hdyn] at hM
      simp at hM
    · rw [if_neg hdyn] at hM
      simp at hM
  · rw [if_neg hMe] at hM
    rw [h M hM]
    simp [hMe]

theorem buildRouter_statics_ok (pfx : Option String) (regs : List Registration) :
    StaticsOK (buildRouter pfx regs) := by
  suffices h : ∀ (l : List Registration) (r : FastRouter), StaticsOK r →
      StaticsOK (l.foldl (fun s g => addRoute s g.method g.path g.handler g.mws) r) by
    refine h regs (emptyRouter pfx) ?_
    intro M q rt hsf
    simp [staticFind, emptyRouter, getA] at hsf
  intro l
  induction l with
  | nil => intro r hr; exact hr
  | cons g t ih =>
    intro r hr
    exact ih _ (staticsOK_addRoute _ _ _ _ _ hr)

theorem buildRouter_dynInit (pfx : Option String) (regs : List Registration) :
    DynInit (buildRouter pfx regs) := by
  suffices h : ∀ (l : List Registration) (r : FastRouter), DynInit r →
      DynInit (l.foldl (fun s g => addRoute s g.method g.path g.handler g.mws) r) by
    refine h regs (emptyRouter pfx) ?_
    intro M _
    simp [emptyRouter, getA]
  intro l
  induction l with
  | nil => intro r hr; exact hr
  | cons g t ih =>
    intro r hr
    exact ih _ (dynInit_addRoute _ _ _ _ _ hr)

theorem buildRouter_cache (pfx : Option String) (regs : List Registration) :
    (buildRouter pfx regs).cache = [] := by
  suffices h : ∀ (l : List Registration) (r : FastRouter),
      (l.foldl (fun s g => addRoute s g.method g.path g.handler g.mws) r).cache = r.cache by
    exact h regs (emptyRouter pfx)
  intro l
  induction l with
  | nil => intro r; rfl
  | cons g t ih =>
    intro r
    rw [List.foldl_cons, ih, addRoute_cache]

theorem buildRouter_pfx (pfx : Option String) (regs : List Registration) :
    (buildRouter pfx regs).pfx = pfx := by
  suffices h : ∀ (l : List Registration) (r : FastRouter),
      (l.foldl (fun s g => addRoute s g.method g.path g.handler g.mws) r).pfx = r.pfx by
    exact h regs (emptyRouter pfx)
  intro l
  induction l with
  | nil => intro r; rfl
  | cons g t ih =>
    intro r
    rw [List.foldl_cons, ih, addRoute_pfx]

theorem buildRouter_dyns (pfx : Option String) (regs : List Registration) (M : String) :
    (getA (buildRouter pfx regs).dyns M).getD [] =
      (regs.filter fun g =>
        decide (jsUpper g.method = M) && isDynPath (applyPfx pfx g.path)).map
        fun g => compileDynamicRoute (applyPfx pfx g.path) g.handler g.mws := by
  suffices h : ∀ (l : List Registration) (r : FastRouter), DynInit r → r.pfx = pfx →
      (getA (l.foldl (fun s g => addRoute s g.method g.path g.handler g.mws) r).dyns M).getD []
        = (getA r.dyns M).getD [] ++
          (l.filter fun g =>
            decide (jsUpper g.method = M) && isDynPath (applyPfx pfx g.path)).map
            fun g => compileDynamicRoute (applyPfx pfx g.path) g.handler g.mws by
    have := h regs (emptyRouter pfx) (by intro M' _; simp [emptyRouter, getA]) rfl
    simpa [emptyRouter, getA] using this
  intro l
  induction l with
  | nil => intro r _ _; simp
  | cons g t ih =>
    intro r hD hpfx
    rw [List.foldl_cons]
    rw [ih _ (dynInit_addRoute _ _ _ _ _ hD) (by rw [addRoute_pfx, hpfx])]
    rw [addRoute_dyns_getD _ _ _ _ _ hD M, hpfx]
    rw [List.filter_cons]
    by_cases hcond : M = jsUpper g.method ∧ isDynPath (applyPfx pfx g.path)
    · have h1 : jsUpper g.method = M := hcond.1.symm
      have hb : (decide (jsUpper g.method = M) && isDynPath (applyPfx pfx g.path)) = true := by
        simp [h1, hcond.2]
      simp [hcond, hb, List.append_assoc]
    · have hb : (decide (jsUpper g.method = M) && isDynPath (applyPfx pfx g.path)) = false := by
        rcases not_and_or.mp hcond with hx | hx
        · have hx' : ¬ jsUpper g.method = M := fun e => hx e.symm
          simp [hx']
        · simp [hx]
      simp [hcond, hb]

theorem setA_length_le {α β : Type} [DecidableEq α] (l : List (α × β)) (k : α) (v : β) :
    (setA l k v).length ≤ l.length + 1 := by
  induction l with
  | nil => simp [setA]
  | cons e t ih =>
    obtain ⟨k', v'⟩ := e
    by_cases hk : k' = k
    · simp [setA, hk]
    · simp [setA, hk]
      omega

theorem findRoute_inv (dec : String → String) (r0 r : FastRouter) (m p : String)
    (hInv : RouterInv dec r0 r) (hm : ':' ∉ (jsUpper m).toList) :
    (findRoute dec r m p).1 = computeRoute dec r0 (jsUpper m) p ∧
    RouterInv dec r0 (findRoute dec r m p).2 := by
  obtain ⟨hs, hd, hc⟩ := hInv
  have hstat_eq : staticFind r (jsUpper m) p = staticFind r0 (jsUpper m) p := by
    unfold staticFind
    rw [hs]
  have hdyn_eq : (getA r.dyns (jsUpper m)).getD [] = (getA r0.dyns (jsUpper m)).getD [] := by
    rw [hd]
  simp only [findRoute]
  cases hcache : getA r.cache (cacheKey (jsUpper m) p) with
  | some rt =>
    have hok := hc _ (getA_mem hcache)
    have hcr : computeRoute dec r0 (jsUpper m) p = some rt :=
      (entryOK_cacheKey dec r0 (jsUpper m) p rt hm).mp hok
    exact ⟨hcr.symm, hs, hd, hc⟩
  | none =>
    cases hstat : staticFind r (jsUpper m) p with
    | some rt =>
      have hcr : computeRoute dec r0 (jsUpper m) p = some rt := by
        unfold computeRoute
        rw [← hstat_eq, hstat]
      have hput : RouterInv dec r0 (cachePut r (cacheKey (jsUpper m) p) rt) := by
        unfold cachePut
        split
        · refine ⟨hs, hd, ?_⟩
          intro e he
          rcases mem_setA _ _ _ e he with hin | hnew
          · exact hc e hin
          · subst hnew
            exact (entryOK_cacheKey dec r0 (jsUpper m) p rt hm).mpr hcr
        · exact ⟨hs, hd, hc⟩
      exact ⟨hcr.symm, hput⟩
    | none =>
      cases hdy : firstDynMatch dec ((getA r.dyns (jsUpper m)).getD []) p with
      | some rt =>
        have hcr : computeRoute dec r0 (jsUpper m) p = some rt := by
          unfold computeRoute
          rw [← hstat_eq, hstat, ← hdyn_eq, hdy]
        have hput : RouterInv dec r0 (cachePut r (cacheKey (jsUpper m) p) rt) := by
          unfold cachePut
          split
          · refine ⟨hs, hd, ?_⟩
            intro e he
            rcases mem_setA _ _ _ e he with hin | hnew
            · exact hc e hin
            · subst hnew
              exact (entryOK_cacheKey dec r0 (jsUpper m) p rt hm).mpr hcr
          · exact ⟨hs, hd, hc⟩
        exact ⟨hcr.symm, hput⟩
      | none =>
        have hcr : computeRoute dec r0 (jsUpper m) p = none := by
          unfold computeRoute
          rw [← hstat_eq, hstat, ← hdyn_eq, hdy]
        exact ⟨hcr.symm, hs, hd, hc⟩

theorem findRoute_cache_le (dec : String → String) (r : FastRouter) (m p : String)
    (h : r.cache.length ≤ 10000) : (findRoute dec r m p).2.cache.length ≤ 10000 := by
  have hput : ∀ key rt, (cachePut r key rt).cache.length ≤ 10000 := by
    intro key rt
    unfold cachePut
    split
    · calc (setA r.cache key rt).length ≤ r.cache.length + 1 := setA_length_le _ _ _
        _ ≤ 10000 := by omega
    · exact h
  simp only [findRoute]
  cases hcache : getA r.cache (cacheKey (jsUpper m) p) with
  | some rt => exact h
  | none =>
    cases hstat : staticFind r (jsUpper m) p with
    | some rt => exact hput _ _
    | none =>
      cases hdy : firstDynMatch dec ((getA r.dyns (jsUpper m)).getD []) p with
      | some rt => exact hput _ _
      | none => exact h

theorem findRoute_cache_full (dec : String → String) (r : FastRouter) (m p : String)
    (h : r.cache.length = 10000) : (findRoute dec r m p).2.cache = r.cache := by
  have hput : ∀ key rt, (cachePut r key rt).cache = r.cache := by
    intro key rt
    unfold cachePut
    rw [if_neg (by omega)]
  simp only [findRoute]
  cases hcache : getA r.cache (cacheKey (jsUpper m) p) with
  | some rt => rfl
  | none =>
    cases hstat : staticFind r (jsUpper m) p with
    | some rt => exact hput _ _
    | none =>
      cases hdy : firstDynMatch dec ((getA r.dyns (jsUpper m)).getD []) p with
      | some rt => exact hput _ _
      | none => rfl

theorem runResolves_inv (dec : String → String) (r0 : FastRouter) :
    ∀ (calls : List (String × String)) (r : FastRouter),
      RouterInv dec r0 r → (∀ c ∈ calls, ':' ∉ (jsUpper c.1).toList) →
      (runResolves dec r calls).1 =
        calls.map (fun c => computeRoute dec r0 (jsUpper c.1) c.2) ∧
      RouterInv dec r0 (runResolves dec r calls).2 := by
  intro calls
  induction calls with
  | nil => intro r h _; exact ⟨rfl, h⟩
  | cons c t ih =>
    intro r h hc
    have hstep := findRoute_inv dec r0 r c.1 c.2 h (hc c (by simp))
    have hrest := ih (findRoute dec r c.1 c.2).2 hstep.2 fun x hx => hc x (by simp [hx])
    simp only [runResolves, List.map_cons]
    exact ⟨by rw [hstep.1, hrest.1], hrest.2⟩

theorem runResolves_cache_le (dec : String → String) :
    ∀ (calls : List (String × String)) (r : FastRouter), r.cache.length ≤ 10000 →
      (runResolves dec r calls).2.cache.length ≤ 10000 := by
  intro calls
  induction calls with
  | nil => intro r h; exact h
  | cons c t ih =>
    intro r h
    simp only [runResolves]
    exact ih _ (findRoute_cache_le dec r c.1 c.2 h)

theorem runResolves_snd_append (dec : String → String) :
    ∀ (l1 l2 : List (String × String)) (r : FastRouter),
      (runResolves dec r (l1 ++ l2)).2 = (runResolves dec (runResolves dec r l1).2 l2).2 := by
  intro l1
  induction l1 with
  | nil => intro l2 r; rfl
  | cons c t ih =>
    intro l2 r
    simp only [List.cons_append, runResolves]
    exact ih l2 _

theorem runResolves_take_succ (dec : String → String) (r : FastRouter)
    (calls : List (String × String)) (k : Nat) (c : String × String)
    (h : calls.get? k = some c) :
    (runResolves dec r (calls.take (k + 1))).2 =
      (findRoute dec (runResolves dec r (calls.take k)).2 c.1 c.2).2 := by
  have ht : calls.take (k + 1) = calls.take k ++ [c] := by
    rw [List.take_succ, ← List.get?_eq_getElem?, h]
    rfl
  rw [ht, runResolves_snd_append]
  rfl

theorem setA_append_of_not_mem {α β : Type} [DecidableEq α] {l : List (α × β)} {k : α}
    (v : β) (h : k ∉ l.map Prod.fst) : setA l k v = l ++ [(k, v)] := by
  induction l with
  | nil => rfl
  | cons e t ih =>
    obtain ⟨k', v'⟩ := e
    simp only [List.map_cons, List.mem_cons] at h
    push_neg at h
    have hne : ¬ k' = k := fun hh => h.1 hh.symm
    simp [setA, hne, ih h.2]

theorem emptyV_tbl (pfx : Option String) (M : String) :
    ((getA (emptyV pfx).vcache M).getD []) = [] := by
  simp only [emptyV, getA]
  split_ifs <;> rfl

theorem vBuild_tbl_aux (pfx : Option String) :
    ∀ (l : List Registration) (vr : VRouter), vr.vpfx = pfx →
      (∀ g ∈ l, applyPfx pfx g.path ∉ ((getA vr.vcache g.method).getD []).map Prod.fst) →
      ((l.map fun g => (g.method, applyPfx pfx g.path)).Nodup) →
      ∀ M,
        (getA (l.foldl (fun s g => vAddRoute s g.method g.path g.handler g.mws) vr).vcache
          M).getD []
        = (getA vr.vcache M).getD [] ++
          (l.filter fun g => g.method == M).map fun g =>
            (applyPfx pfx g.path,
             { handler := g.handler, middlewareIds := vr.vmw ++ g.mws,
               paramNames := paramNamesOf ((splitStr (applyPfx pfx g.path) "/").map toSeg),
               segs := (splitStr (applyPfx pfx g.path) "/").map toSeg }) := by
  intro l
  induction l with
  | nil => intro vr _ _ _ M; simp
  | cons g t ih =>
    intro vr hpfx hfresh hnd M
    simp only [List.map_cons, List.nodup_cons] at hnd
    have hgfresh := hfresh g (by simp)
    have htbl' : ∀ M', (getA (vAddRoute vr g.method g.path g.handler g.mws).vcache M').getD []
        = (getA vr.vcache M').getD [] ++
          (if g.method = M' then
            [(applyPfx pfx g.path,
              { handler := g.handler, middlewareIds := vr.vmw ++ g.mws,
                paramNames := paramNamesOf ((splitStr (applyPfx pfx g.path) "/").map toSeg),
                segs := (splitStr (applyPfx pfx g.path) "/").map toSeg })]
           else []) := by
      intro M'
      by_cases hM : g.method = M'
      · subst hM
        simp only [vAddRoute, hpfx, getA_setA_eq, Option.getD_some, if_pos rfl]
        rw [setA_append_of_not_mem _ hgfresh]
        simp
      · have hM' : M' ≠ g.method := fun e => hM e.symm
        simp only [vAddRoute, hpfx, getA_setA_ne _ _ _ _ hM', if_neg hM, List.append_nil]
    have hmw : (vAddRoute vr g.method g.path g.handler g.mws).vmw = vr.vmw := rfl
    have hih := ih (vAddRoute vr g.method g.path g.handler g.mws) (by rw [vAddRoute, hpfx])
      (by
        intro x hx
        rw [htbl' x.method]
        by_cases hxm : g.method = x.method
        · rw [if_pos hxm, List.map_append]
          intro hmem
          rcases List.mem_append.mp hmem with hmem | hmem
          · exact hfresh x (by simp [hx]) hmem
          · simp only [List.map_cons, List.map_nil, List.mem_singleton] at hmem
            apply hnd.1
            refine List.mem_map.mpr ⟨x, hx, ?_⟩
            exact Prod.ext hxm.symm hmem
        · rw [if_neg hxm, List.append_nil]
          exact hfresh x (by simp [hx]))
      hnd.2
    rw [List.foldl_cons, hih M, hmw, htbl' M, List.filter_cons]
    by_cases hM : g.method = M
    · have hb : (g.method == M) = true := by simp [hM]
      simp [hM, hb, List.append_assoc]
    · have hb : (g.method == M) = false := by simp [hM]
      simp [hM, hb]

theorem vBuild_tbl (pfx : Option String) (regs : List Registration)
    (hnd : (regs.map fun g => (g.method, applyPfx pfx g.path)).Nodup) (M : String) :
    (getA (vBuild pfx regs).vcache M).getD [] =
      (regs.filter fun g => g.method == M).map fun g =>
        (applyPfx pfx g.path,
         { handler := g.handler, middlewareIds := g.mws,
           paramNames := paramNamesOf ((splitStr (applyPfx pfx g.path) "/").map toSeg),
           segs := (splitStr (applyPfx pfx g.path) "/").map toSeg }) := by
  have h := vBuild_tbl_aux pfx regs (emptyV pfx) rfl
    (by
      intro g _
      rw [emptyV_tbl]
      simp)
    hnd M
  rw [vBuild] at *
  rw [h, emptyV_tbl]
  simp [emptyV]

/-- Claim C1 (amended): over a FastRouter built by any sequence of
registrations, every resolution of any resolve sequence returns the
cache-free result of its method and path, so repeated resolutions of
the same call give the same result; a static route registered for the
exact method and path is that result, carrying the static marker and
no parameters, before any dynamic route is considered; otherwise the
first matching pattern of the dynamic list wins, and that list holds
the compiled dynamic registrations in registration order.  In
VeloxRouter.findRoute the same holds with one exception: a resolved
path that is literally an exact pattern-path key of the method's
table returns that route with empty params directly; only otherwise
does the insertion-ordered regex scan run, whose table lists the
registrations in order when their method and full path pairs are
distinct.  Methods are restricted to colon-free strings, which the
HTTP verbs of the external interface are: a method containing a colon
could make two method-path pairs share one cache key string. -/
theorem c1_resolve_static_first_dynamic_in_order (dec : String → String)
    (pfx : Option String) (regs : List Registration) (calls : List (String × String))
    (hcalls : ∀ c ∈ calls, ':' ∉ (jsUpper c.1).toList) :
    ((runResolves dec (buildRouter pfx regs) calls).1 =
      calls.map fun c => computeRoute dec (buildRouter pfx regs) (jsUpper c.1) c.2)
    ∧ (∀ (M p : String) (rt : CompiledRoute),
        staticFind (buildRouter pfx regs) M p = some rt →
        computeRoute dec (buildRouter pfx regs) M p = some rt ∧
        rt.params = none ∧ rt.staticMatch = true)
    ∧ (∀ M p : String, staticFind (buildRouter pfx regs) M p = none →
        computeRoute dec (buildRouter pfx regs) M p =
          firstDynMatch dec ((getA (buildRouter pfx regs).dyns M).getD []) p)
    ∧ (∀ M : String, (getA (buildRouter pfx regs).dyns M).getD [] =
        (regs.filter fun g =>
          decide (jsUpper g.method = M) && isDynPath (applyPfx pfx g.path)).map
          fun g => compileDynamicRoute (applyPfx pfx g.path) g.handler g.mws)
    ∧ (∀ (m p : String) (rt : VRoute),
        getA ((getA (vBuild pfx regs).vcache (jsUpper m)).getD []) p = some rt →
        vFindRoute dec (vBuild pfx regs) m p = some (rt.handler, rt.middlewareIds, []))
    ∧ (∀ m p : String,
        getA ((getA (vBuild pfx regs).vcache (jsUpper m)).getD []) p = none →
        vFindRoute dec (vBuild pfx regs) m p =
          vScan dec ((getA (vBuild pfx regs).vcache (jsUpper m)).getD []) p)
    ∧ ((regs.map fun g => (g.method, applyPfx pfx g.path)).Nodup → ∀ M : String,
        (getA (vBuild pfx regs).vcache M).getD [] =
          (regs.filter fun g => g.method == M).map fun g =>
            (applyPfx pfx g.path,
             { handler := g.handler, middlewareIds := g.mws,
               paramNames := paramNamesOf ((splitStr (applyPfx pfx g.path) "/").map toSeg),
               segs := (splitStr (applyPfx pfx g.path) "/").map toSeg })) := by
  have hinv0 : RouterInv dec (buildRouter pfx regs) (buildRouter pfx regs) := by
    refine ⟨rfl, rfl, ?_⟩
    rw [buildRouter_cache]
    intro e he
    exact absurd he (List.not_mem_nil e)
  refine ⟨(runResolves_inv dec _ calls _ hinv0 hcalls).1, ?_, ?_,
    buildRouter_dyns pfx regs, ?_, ?_, fun hnd M => vBuild_tbl pfx regs hnd M⟩
  · intro M p rt hsf
    have hprops := buildRouter_statics_ok pfx regs M p rt hsf
    exact ⟨by simp [computeRoute, hsf], hprops.2.1, hprops.1⟩
  · intro M p hsf
    simp [computeRoute, hsf]
  · intro m p rt hhit
    simp [vFindRoute, hhit]
  · intro m p hmiss
    simp [vFindRoute, hmiss]

set_option maxRecDepth 20000 in
/-- Claim C1, counterexample to the claim as stated: in VeloxRouter
both registered dynamic patterns match the literal path /users/:id
and the scan in registration order would return the first-registered
handler 1, as the claim demands, but findRoute returns handler 2
through its exact pattern-path key lookup. -/
theorem c1_counterexample :
    (vFindRoute (fun s => s) (vBuild none shadowRegs) "GET" "/users/:id").map
      (fun r => r.1) = some 2 ∧
    vScan (fun s => s) ((getA (vBuild none shadowRegs).vcache "GET").getD [])
      "/users/:id" = some (1, [], [("a", "users"), ("b", ":id")]) ∧
    ¬ (vFindRoute (fun s => s) (vBuild none shadowRegs) "GET" "/users/:id").map
      (fun r => r.1) = some 1 := by decide

theorem c1_witness :
    (runResolves (fun s => s) (buildRouter none demoRegs) demoCalls).1 =
      demoCalls.map
        (fun c => computeRoute (fun s => s) (buildRouter none demoRegs) (jsUpper c.1) c.2) :=
  (c1_resolve_static_first_dynamic_in_order (fun s => s) none demoRegs demoCalls
    (by decide)).1

/-- Claim C4: along any resolve sequence the match cache never holds
more than 10000 entries; at the step where it holds exactly 10000
entries and the call's key is not cached, the resolver still returns
the cache-free (correct) result but the cache after the step is
unchanged: no entry is added and none is evicted. -/
theorem c4_cache_bounded_no_eviction (dec : String → String) (pfx : Option String)
    (regs : List Registration) (calls : List (String × String))
    (hcalls : ∀ c ∈ calls, ':' ∉ (jsUpper c.1).toList) :
    (∀ k : Nat,
      ((runResolves dec (buildRouter pfx regs) (calls.take k)).2).cache.length ≤ 10000)
    ∧ (∀ (k : Nat) (m p : String), calls.get? k = some (m, p) →
        ((runResolves dec (buildRouter pfx regs) (calls.take k)).2).cache.length = 10000 →
        getA ((runResolves dec (buildRouter pfx regs) (calls.take k)).2).cache
          (cacheKey (jsUpper m) p) = none →
        (findRoute dec (runResolves dec (buildRouter pfx regs) (calls.take k)).2 m p).1 =
          computeRoute dec (buildRouter pfx regs) (jsUpper m) p ∧
        ((runResolves dec (buildRouter pfx regs) (calls.take (k + 1))).2).cache =
          ((runResolves dec (buildRouter pfx regs) (calls.take k)).2).cache) := by
  have hinv0 : RouterInv dec (buildRouter pfx regs) (buildRouter pfx regs) := by
    refine ⟨rfl, rfl, ?_⟩
    rw [buildRouter_cache]
    intro e he
    exact absurd he (List.not_mem_nil e)
  have hc0 : (buildRouter pfx regs).cache.length ≤ 10000 := by
    rw [buildRouter_cache]
    simp
  constructor
  · intro k
    exact runResolves_cache_le dec (calls.take k) _ hc0
  · intro k m p hget hfull hmiss
    have hmem : (m, p) ∈ calls := List.get?_mem hget
    have hinvk : RouterInv dec (buildRouter pfx regs)
        (runResolves dec (buildRouter pfx regs) (calls.take k)).2 :=
      (runResolves_inv dec _ (calls.take k) _ hinv0
        fun c hcm => hcalls c (List.mem_of_mem_take hcm)).2
    have hstep := findRoute_inv dec (buildRouter pfx regs) _ m p hinvk (hcalls (m, p) hmem)
    refine ⟨hstep.1, ?_⟩
    rw [runResolves_take_succ dec _ calls k (m, p) hget]
    exact findRoute_cache_full dec _ m p hfull

theorem c4_witness :
    ((runResolves (fun s => s) (buildRouter none demoRegs)
      (demoCalls.take 2)).2).cache.length ≤ 10000 :=
  (c4_cache_bounded_no_eviction (fun s => s) none demoRegs demoCalls (by decide)).1 2

end Velox
